import Mathlib

/-!
# Snapshot preview core of the Android front end (`xemu_snapshots_stub.c`)

A shallow embedding of the pure parts of `xemu_snapshots_stub.c`:

* the extra-data codec (`xemu_snapshots_save_extra_data`,
  `xemu_snapshots_offset_extra_data`) over a byte-stream model of `QEMUFile`;
* `sanitize_snapshot_name`;
* the nearest-neighbour downsampling loop of `capture_snapshot_thumbnail`;
* the sidecar writer `write_snapshot_preview_sidecar` over an explicit model of
  the storage and file services it calls;
* the request slot `g_snap_req` with the owner's poll
  `xemu_android_process_snapshot_request` and the two halves of
  `dispatch_snapshot`, as atomic steps on an explicit state.

Conventions.  A byte is a `Nat` (intended `< 256`); C casts to `uint8_t` /
`unsigned char` are written `% 256`, casts to `unsigned int` / `uint32_t` are
written `% 2 ^ 32`.  A C string is the list of its bytes; the terminating NUL
is implicit at the end of the list, and a `0` inside the list terminates the
string early, exactly as the C code would see it.
-/

namespace XemuSnapshots

/-! ## Byte stream (`QEMUFile`) -/

/-- Modelled from the spec: the `QEMUFile` byte stream of `migration/qemu-file.h`,
which is not part of the translated sources.  `data` holds the bytes of the
stream, `pos` is the read cursor.  Writers append to `data`. -/
structure QEMUFile where
  data : List Nat
  pos : Nat
  deriving DecidableEq, Repr

/-- Modelled from the spec: `qemu_put_byte(f, v)` appends the low 8 bits of `v`. -/
def qemu_put_byte (f : QEMUFile) (v : Nat) : QEMUFile :=
  { f with data := f.data ++ [v % 256] }

/-- Modelled from the spec: `qemu_put_be32(f, v)` appends the 32-bit value `v`
as four bytes, most significant first ("all multi-byte integers are
big-endian"). -/
def qemu_put_be32 (f : QEMUFile) (v : Nat) : QEMUFile :=
  let v := v % 2 ^ 32
  qemu_put_byte (qemu_put_byte (qemu_put_byte (qemu_put_byte f (v / 2 ^ 24)) (v / 2 ^ 16))
    (v / 2 ^ 8)) v

/-- Modelled from the spec: `qemu_put_buffer(f, buf, size)` appends the first
`size` bytes of `buf`. -/
def qemu_put_buffer (f : QEMUFile) (buf : List Nat) (size : Nat) : QEMUFile :=
  { f with data := f.data ++ buf.take size }

/-- Modelled from the spec: `qemu_get_byte(f)` returns the byte under the cursor
and advances by one; at the end of the stream it returns `0` and the cursor
stays. -/
def qemu_get_byte (f : QEMUFile) : Nat × QEMUFile :=
  if f.pos < f.data.length then (f.data.getD f.pos 0, { f with pos := f.pos + 1 })
  else (0, f)

/-- Modelled from the spec: `qemu_get_be32(f)` reads four bytes and combines
them big-endian into a 32-bit value. -/
def qemu_get_be32 (f : QEMUFile) : Nat × QEMUFile :=
  let (b0, f1) := qemu_get_byte f
  let (b1, f2) := qemu_get_byte f1
  let (b2, f3) := qemu_get_byte f2
  let (b3, f4) := qemu_get_byte f3
  ((b0 * 2 ^ 24 + b1 * 2 ^ 16 + b2 * 2 ^ 8 + b3) % 2 ^ 32, f4)

/-- Modelled from the spec: `qemu_file_skip(f, size)` moves the cursor by the
signed amount `size` when the target does not lie past the end of the stream
(the "put those 4 bytes back (rewind)" of the decoder is `size = -4`). -/
def qemu_file_skip (f : QEMUFile) (size : Int) : QEMUFile :=
  if (f.pos : Int) + size ≤ (f.data.length : Int) then
    { f with pos := ((f.pos : Int) + size).toNat }
  else f

/-- Modelled from the spec: `qemu_get_buffer(f, buf, size)` reads up to `size`
bytes into `buf` and advances the cursor by the number of bytes read; fewer
than `size` bytes are read only when the stream ends first.  Returns the bytes
read. -/
def qemu_get_buffer (f : QEMUFile) (size : Nat) : List Nat × QEMUFile :=
  let got := (f.data.drop f.pos).take size
  (got, { f with pos := f.pos + got.length })

/-- The unread remainder of the stream. -/
def QEMUFile.unread (f : QEMUFile) : List Nat := f.data.drop f.pos

/-! ## Extra-data codec -/

/-- The C `strlen`: number of bytes before the first NUL. -/
def strlen (s : List Nat) : Nat := (s.takeWhile (fun b => b != 0)).length

/-- `xemu_snapshots_save_extra_data` (lines 303-324).  `magic` and `version`
stand for the constants `XEMU_SNAPSHOT_DATA_MAGIC` and
`XEMU_SNAPSHOT_DATA_VERSION` of `ui/xemu-snapshots.h`; `title` is the result of
`get_snapshot_title()` (`none` for a null pointer). -/
def xemu_snapshots_save_extra_data (magic version : Nat) (title : Option (List Nat))
    (f : QEMUFile) : QEMUFile :=
  let title_size := match title with
    | some t => strlen t
    | none => 0
  let title_size := if title_size > 255 then 255 else title_size
  let f := qemu_put_be32 f magic
  let f := qemu_put_be32 f version
  let f := qemu_put_be32 f (4 + 1 + title_size + 4)
  let f := qemu_put_be32 f 0
  let f := qemu_put_byte f title_size
  let f := if title_size ≠ 0 then qemu_put_buffer f (title.getD []) title_size else f
  let f := qemu_put_be32 f 0
  f

/-- `xemu_snapshots_offset_extra_data` (lines 326-347).  Returns the C return
value and the stream after the call. -/
def xemu_snapshots_offset_extra_data (magic : Nat) (f : QEMUFile) : Bool × QEMUFile :=
  let (v, f) := qemu_get_be32 f
  if v ≠ magic then
    let f := qemu_file_skip f (-4)
    (true, f)
  else
    let (_, f) := qemu_get_be32 f
    let (size, f) := qemu_get_be32 f
    let (_, f) := qemu_get_buffer f size
    (true, f)

/-- The title "Halo" as bytes. -/
def halo : List Nat := [72, 97, 108, 111]

/-- The value of `XEMU_SNAPSHOT_DATA_MAGIC` used in concrete examples
(the ASCII bytes "xemu"). -/
def exampleMagic : Nat := 0x78656d75

/-- The four bytes of the 32-bit value `v`, most significant first. -/
def be32 (v : Nat) : List Nat :=
  [v % 2 ^ 32 / 2 ^ 24 % 256, v % 2 ^ 32 / 2 ^ 16 % 256, v % 2 ^ 32 / 2 ^ 8 % 256,
    v % 2 ^ 32 % 256]

/-- The big-endian value of four bytes, as a 32-bit integer. -/
def be32Value (b0 b1 b2 b3 : Nat) : Nat :=
  (b0 * 2 ^ 24 + b1 * 2 ^ 16 + b2 * 2 ^ 8 + b3) % 2 ^ 32

/-- The title length written by the encoder: `strlen` clamped to 255. -/
def clampedTitleLen (title : Option (List Nat)) : Nat :=
  min (match title with
    | some t => strlen t
    | none => 0) 255

/-! ## `sanitize_snapshot_name` -/

/-- The glib predicate `g_ascii_isalnum`: true exactly for the ASCII digits and
the ASCII letters (it is false for every byte `≥ 0x80`). -/
def g_ascii_isalnum (c : Nat) : Bool :=
  (48 ≤ c && c ≤ 57) || (65 ≤ c && c ≤ 90) || (97 ≤ c && c ≤ 122)

/-- The glib function `g_strlcpy(dest, src, dest_size)` for `dest_size > 0`:
`dest` receives the first `dest_size - 1` bytes of the C string `src` and a
terminating NUL.  The result is the C string left in `dest`. -/
def g_strlcpy (src : List Nat) (dest_size : Nat) : List Nat :=
  (src.takeWhile (fun b => b != 0)).take (dest_size - 1)

/-- The string literal `"snapshot"`. -/
def snapshotLit : List Nat := [115, 110, 97, 112, 115, 104, 111, 116]

/-- The loop of `sanitize_snapshot_name` (lines 53-60).  The first argument is
`out_len`, the second the part of `in` from index `i` on, the third the bytes
`out[0..j)` written so far (so `j` is its length).  The loop stops at the
terminating NUL of `in` or when `j + 1 < out_len` fails. -/
def sanitize_loop (out_len : Nat) : List Nat → List Nat → List Nat
  | [], out => out
  | ch :: rest, out =>
    if ch ≠ 0 ∧ out.length + 1 < out_len then
      let c := ch % 256
      if g_ascii_isalnum c || c == 95 || c == 45 then
        sanitize_loop out_len rest (out ++ [c])
      else
        sanitize_loop out_len rest (out ++ [95])
    else out

/-- `sanitize_snapshot_name(in, out, out_len)` (lines 40-67).  `inp = none` is
a null `in`.  The result is the C string left in `out`; it is `none` when the
function returns without writing (`out_len == 0`; a null `out` takes the same
early return). -/
def sanitize_snapshot_name (inp : Option (List Nat)) (out_len : Nat) : Option (List Nat) :=
  if out_len = 0 then none
  else
    match inp with
    | none => some (g_strlcpy snapshotLit out_len)
    | some s =>
      if s.headD 0 = 0 then some (g_strlcpy snapshotLit out_len)
      else
        let out := sanitize_loop out_len s []
        if out.length = 0 then some (g_strlcpy snapshotLit out_len)
        else some out

/-- The bytes allowed in a stem: ASCII digit, ASCII letter, `_` or `-`. -/
def IsStemChar (b : Nat) : Prop :=
  (48 ≤ b ∧ b ≤ 57) ∨ (65 ≤ b ∧ b ≤ 90) ∨ (97 ≤ b ∧ b ≤ 122) ∨ b = 95 ∨ b = 45

instance (b : Nat) : Decidable (IsStemChar b) := by
  unfold IsStemChar
  infer_instance

/-- The byte written for the input byte `ch` by one loop iteration. -/
def sanitizeChar (ch : Nat) : Nat :=
  if g_ascii_isalnum (ch % 256) || ch % 256 == 95 || ch % 256 == 45 then ch % 256 else 95

/-! ## Thumbnail capture -/

/-- `SNAPSHOT_PREVIEW_WIDTH` (line 25). -/
def SNAPSHOT_PREVIEW_WIDTH : Nat := 320

/-- `SNAPSHOT_PREVIEW_HEIGHT` (line 26). -/
def SNAPSHOT_PREVIEW_HEIGHT : Nat := 240

/-- Conversion of a mathematical integer to `int64_t` (two's complement). -/
def wrapInt64 (v : Int) : Int := (v + 2 ^ 63) % 2 ^ 64 - 2 ^ 63

/-- Conversion of a mathematical integer to `int` (32 bits, two's complement). -/
def wrapInt32 (v : Int) : Int := (v + 2 ^ 31) % 2 ^ 32 - 2 ^ 31

/-- Conversion of an integer to `size_t` (64 bits). -/
def toSizeT (v : Int) : Nat := (v % 2 ^ 64).toNat

/-- The C `memcpy(dst + dst_off, src + src_off, n)` on byte buffers.  A write
past the end of `dst` is dropped and a read past the end of `src` yields `0`
(both are undefined behaviour in C). -/
def memcpy (dst : List Nat) (dst_off : Nat) (src : List Nat) (src_off n : Nat) : List Nat :=
  (List.range n).foldl (fun d k => d.set (dst_off + k) (src.getD (src_off + k) 0)) dst

/-- Body of the inner loop of `capture_snapshot_thumbnail` (lines 159-163) for
the destination pixel `(x, y)`, with `src_y` already computed by the outer
loop. -/
def downsample_pixel (src_w : Int) (src_pixels : List Nat) (y : Nat) (src_y : Int)
    (dst_pixels : List Nat) (x : Nat) : List Nat :=
  let src_x : Int := wrapInt32 ((wrapInt64 ((x : Int) * src_w)).tdiv (SNAPSHOT_PREVIEW_WIDTH : Int))
  let src_off : Nat :=
    ((toSizeT src_y * toSizeT src_w) % 2 ^ 64 + toSizeT src_x) % 2 ^ 64 * 4 % 2 ^ 64
  let dst_off : Nat := ((y * SNAPSHOT_PREVIEW_WIDTH) % 2 ^ 64 + x) % 2 ^ 64 * 4 % 2 ^ 64
  memcpy dst_pixels dst_off src_pixels src_off 4

/-- Body of the outer loop (lines 157-164) for the destination row `y`: the
inner loop over `x = 0 .. SNAPSHOT_PREVIEW_WIDTH - 1`. -/
def downsample_row (src_w src_h : Int) (src_pixels : List Nat) (dst_pixels : List Nat)
    (y : Nat) : List Nat :=
  let src_y : Int := wrapInt32 ((wrapInt64 ((y : Int) * src_h)).tdiv (SNAPSHOT_PREVIEW_HEIGHT : Int))
  (List.range SNAPSHOT_PREVIEW_WIDTH).foldl (downsample_pixel src_w src_pixels y src_y) dst_pixels

/-- The downsampling loops of `capture_snapshot_thumbnail` (lines 156-165):
the outer loop over `y = 0 .. SNAPSHOT_PREVIEW_HEIGHT - 1`. -/
def downsample (src_w src_h : Int) (src_pixels dst_pixels : List Nat) : List Nat :=
  (List.range SNAPSHOT_PREVIEW_HEIGHT).foldl (downsample_row src_w src_h src_pixels) dst_pixels

/-- The external graphics resource as seen by `capture_snapshot_thumbnail`:
whether `SDL_GL_GetCurrentContext()` is non-null, the four `GLint`s returned by
`glGetIntegerv(GL_VIEWPORT, ..)`, the bytes `glReadPixels` stores into
`src_pixels`, and the value of `glGetError()` after the read
(`GL_NO_ERROR` is `0`). -/
structure GLState where
  has_context : Bool
  viewport0 : Int
  viewport1 : Int
  viewport2 : Int
  viewport3 : Int
  read_pixels : List Nat
  gl_error : Nat

/-- `capture_snapshot_thumbnail` (lines 110-178).  The two out-parameters are
the result: `some (pixels, pixels_size)` when the function returns `true`,
`none` when it returns `false`.  `g_malloc(dst_bytes)` is a zero-filled buffer
of `dst_bytes` bytes (its initial contents are never read); the `src_bytes`
buffer after `glReadPixels` is `gl.read_pixels`. -/
def capture_snapshot_thumbnail (gl : GLState) (g_snapshot_display_tex : Nat) :
    Option (List Nat × Nat) :=
  if !gl.has_context || g_snapshot_display_tex == 0 then none
  else if gl.viewport2 ≤ 0 ∨ gl.viewport3 ≤ 0 then none
  else
    let src_w := gl.viewport2
    let src_h := gl.viewport3
    let dst_bytes := SNAPSHOT_PREVIEW_WIDTH * SNAPSHOT_PREVIEW_HEIGHT % 2 ^ 64 * 4 % 2 ^ 64
    let src_pixels := gl.read_pixels
    let dst_pixels := List.replicate dst_bytes 0
    if gl.gl_error ≠ 0 then none
    else
      some (downsample src_w src_h src_pixels dst_pixels,
        SNAPSHOT_PREVIEW_WIDTH * SNAPSHOT_PREVIEW_HEIGHT % 2 ^ 64 * 4 % 2 ^ 64)

/-- The `src_x` of the inner loop (line 159) for the destination column `x`. -/
def pixel_src_x (src_w : Int) (x : Nat) : Int :=
  wrapInt32 ((wrapInt64 ((x : Int) * src_w)).tdiv (SNAPSHOT_PREVIEW_WIDTH : Int))

/-- The `src_y` of the outer loop (line 157) for the destination row `y`. -/
def pixel_src_y (src_h : Int) (y : Nat) : Int :=
  wrapInt32 ((wrapInt64 ((y : Int) * src_h)).tdiv (SNAPSHOT_PREVIEW_HEIGHT : Int))

/-- The `src_off` of line 160, computed in `size_t`. -/
def pixel_src_off (src_w src_y src_x : Int) : Nat :=
  ((toSizeT src_y * toSizeT src_w) % 2 ^ 64 + toSizeT src_x) % 2 ^ 64 * 4 % 2 ^ 64

/-- The `dst_off` of lines 161-162, computed in `size_t`. -/
def pixel_dst_off (y x : Nat) : Nat :=
  ((y * SNAPSHOT_PREVIEW_WIDTH) % 2 ^ 64 + x) % 2 ^ 64 * 4 % 2 ^ 64

/-! ## Sidecar writer -/

/-- The bytes of a C string: everything before the first NUL. -/
def cstr (s : List Nat) : List Nat := s.takeWhile (fun b => b != 0)

/-- `SNAPSHOT_PREVIEW_VERSION` (line 27). -/
def SNAPSHOT_PREVIEW_VERSION : Nat := 1

/-- The external services used by `write_snapshot_preview_sidecar`: the result
of `SDL_AndroidGetInternalStoragePath()`, whether `g_mkdir_with_parents`
succeeds, the result of `get_snapshot_title()`, whether `fopen(path, "wb")`
succeeds, how many bytes of `data` an `fwrite` to `path` stores, the graphics
resource with the value of `g_snapshot_display_tex`, and the byte order of the
target (which fixes the in-memory form of a `uint16_t`). -/
structure SidecarEnv where
  storage_path : Option (List Nat)
  mkdir_ok : Bool
  title : Option (List Nat)
  fopen_ok : List Nat → Bool
  fwrite_count : List Nat → List Nat → Nat
  gl : GLState
  display_tex : Nat
  little_endian : Bool

/-- The string literal `"/x1box/snapshots"`. -/
def x1boxSnapshotsLit : List Nat :=
  [47, 120, 49, 98, 111, 120, 47, 115, 110, 97, 112, 115, 104, 111, 116, 115]

/-- The string literal `".thm"`. -/
def thmSuffix : List Nat := [46, 116, 104, 109]

/-- The string literal `".title"`. -/
def titleSuffix : List Nat := [46, 116, 105, 116, 108, 101]

/-- `get_snapshot_preview_dir` (lines 69-86): `none` is the null result. -/
def get_snapshot_preview_dir (env : SidecarEnv) : Option (List Nat) :=
  match env.storage_path with
  | none => none
  | some base =>
    if base.headD 0 = 0 then none
    else
      let dir := cstr base ++ x1boxSnapshotsLit
      if env.mkdir_ok then some dir else none

/-- The two bytes of a `uint16_t` in memory, for the given byte order. -/
def u16_bytes (little_endian : Bool) (v : Nat) : List Nat :=
  if little_endian then [v % 65536 % 256, v % 65536 / 256]
  else [v % 65536 / 256, v % 65536 % 256]

/-- The in-memory bytes of the `SnapshotPreviewHeader` (lines 32-38) filled in
by lines 223-228: `magic[4]` at offset 0 and the four `uint16_t` fields at the
offsets 4, 6, 8 and 10 (each field is 2-byte aligned, so the struct has no
padding and `sizeof(header)` is 12). -/
def snapshot_preview_header (little_endian : Bool) : List Nat :=
  [88, 49, 84, 72] ++ u16_bytes little_endian SNAPSHOT_PREVIEW_VERSION ++
    u16_bytes little_endian SNAPSHOT_PREVIEW_WIDTH ++
    u16_bytes little_endian SNAPSHOT_PREVIEW_HEIGHT ++ u16_bytes little_endian 4

/-- The bytes of `data` that an `fwrite` to the file `path` stores. -/
def fwrite_bytes (env : SidecarEnv) (path data : List Nat) : List Nat :=
  data.take (env.fwrite_count path data)

/-- `write_snapshot_preview_sidecar` (lines 180-257).  The result lists the
files opened with `fopen(path, "wb")`, in order, each with the bytes written
to it.  `fwrite(&header, sizeof(header), 1, f)` returns 1 exactly when all 12
header bytes were stored; the pixel `fwrite` is attempted only then. -/
def write_snapshot_preview_sidecar (env : SidecarEnv) (vm_name : Option (List Nat)) :
    List (List Nat × List Nat) :=
  match vm_name with
  | none => []
  | some vm_name =>
    if vm_name.headD 0 = 0 then []
    else
      let safe_name := (sanitize_snapshot_name (some vm_name) 128).getD []
      match get_snapshot_preview_dir env with
      | none => []
      | some dir =>
        let thumb_path := dir ++ [47] ++ safe_name ++ thmSuffix
        let title_path := dir ++ [47] ++ safe_name ++ titleSuffix
        let title_files : List (List Nat × List Nat) :=
          match env.title with
          | some title =>
            if env.fopen_ok title_path then
              [(title_path, fwrite_bytes env title_path (cstr title))]
            else []
          | none => []
        match capture_snapshot_thumbnail env.gl env.display_tex with
        | none => title_files
        | some (pixels, pixels_size) =>
          let header := snapshot_preview_header env.little_endian
          if env.fopen_ok thumb_path then
            let header_written := fwrite_bytes env thumb_path header
            if header_written.length / header.length ≠ 1 then
              title_files ++ [(thumb_path, header_written)]
            else
              title_files ++ [(thumb_path,
                header_written ++ fwrite_bytes env thumb_path (pixels.take pixels_size))]
          else title_files

/-! ## Request dispatcher -/

/-- `SnapOpType` (lines 371-375). -/
inductive SnapOpType
  | SNAP_NONE
  | SNAP_SAVE
  | SNAP_LOAD
  deriving DecidableEq, Repr

/-- The request slot `g_snap_req` (lines 377-388).  `name` is the 128-byte
buffer `char name[128]`; `lock_held` tells whether the mutex `lock` is held by
another thread at the moment a function is entered. -/
structure SnapReq where
  lock_held : Bool
  type : SnapOpType
  name : List Nat
  pending : Bool
  done : Bool
  success : Bool
  deriving DecidableEq, Repr

/-- The zero-initialised static `g_snap_req`. -/
def g_snap_req_init : SnapReq :=
  ⟨false, SnapOpType.SNAP_NONE, List.replicate 128 0, false, false, false⟩

/-- The external engine: whether `save_snapshot` / `load_snapshot` set `*err`
for a given snapshot name. -/
structure Engine where
  save_snapshot_err : List Nat → Bool
  load_snapshot_err : List Nat → Bool

/-- `xemu_snapshots_save` (lines 264-268): the result tells whether `*err` was
set by the engine. -/
def xemu_snapshots_save (eng : Engine) (vm_name : List Nat) : Bool :=
  eng.save_snapshot_err vm_name

/-- `xemu_snapshots_load` (lines 270-277): the result tells whether `*err` was
set by the engine. -/
def xemu_snapshots_load (eng : Engine) (vm_name : List Nat) : Bool :=
  eng.load_snapshot_err vm_name

/-- Everything outside the slot that a drain step touches. -/
structure World where
  engine : Engine
  env : SidecarEnv

/-- The observable calls made by the dispatcher, in program order. -/
inductive Event
  | engine_save (name : List Nat)
  | engine_load (name : List Nat)
  | sidecar (name : List Nat) (files : List (List Nat × List Nat))
  | cond_signal
  | returned (caller : Nat) (ok : Bool)
  deriving DecidableEq, Repr

/-- `xemu_android_process_snapshot_request` (lines 390-424): the slot after the
call and the calls made. -/
def xemu_android_process_snapshot_request (w : World) (s : SnapReq) : SnapReq × List Event :=
  if s.lock_held then (s, [])
  else if !s.pending then (s, [])
  else
    let name := cstr s.name
    let r : Bool × List Event :=
      if s.type = SnapOpType.SNAP_SAVE then
        let err := xemu_snapshots_save w.engine name
        if !err then
          (err, [Event.engine_save name,
            Event.sidecar name (write_snapshot_preview_sidecar w.env (some name))])
        else (err, [Event.engine_save name])
      else if s.type = SnapOpType.SNAP_LOAD then
        (xemu_snapshots_load w.engine name, [Event.engine_load name])
      else (false, [])
    let s1 : SnapReq := if r.1 then { s with success := false } else { s with success := true }
    ({ s1 with pending := false, done := true }, r.2 ++ [Event.cond_signal])

/-- The C `strncpy(dest, src, n)`: the first `n` bytes of `dest` receive the
bytes of the C string `src`, padded with NULs when `src` is shorter than
`n`. -/
def strncpy (dest src : List Nat) (n : Nat) : List Nat :=
  memcpy dest 0 (cstr src) 0 n

/-- The submission part of `dispatch_snapshot` (lines 430-436), executed with
the mutex held, up to the point where the caller starts waiting. -/
def dispatch_snapshot_submit (s : SnapReq) (name : List Nat) (type : SnapOpType) : SnapReq :=
  { s with
    type := type
    pending := true
    done := false
    name := (strncpy s.name name (128 - 1)).set (128 - 1) 0 }

/-- The final part of `dispatch_snapshot` (lines 442-445), executed once the
wait loop has seen `done`: the returned `jboolean` and the slot afterwards. -/
def dispatch_snapshot_return (s : SnapReq) : Bool × SnapReq :=
  (s.success, { s with type := SnapOpType.SNAP_NONE })

/-- The slot together with the callers blocked in `pthread_cond_wait`. -/
structure Sys where
  slot : SnapReq
  waiting : List Nat
  deriving DecidableEq, Repr

/-- The atomic steps of the dispatcher. -/
inductive Action
  | submit_write (caller : Nat) (name : List Nat) (type : SnapOpType)
  | drain
  | submit_return (caller : Nat)
  deriving DecidableEq, Repr

/-- One step.  A caller's submit-write needs the mutex (it blocks while the
mutex is held) and ends in the wait, which releases the mutex; the drain is one
call of the owner's poll; a waiting caller returns once it holds the mutex
again and sees `done`.  `none` means that the step is not enabled. -/
def step (w : World) (σ : Sys) : Action → Option (Sys × List Event)
  | Action.submit_write c name t =>
    if c ∈ σ.waiting ∨ σ.slot.lock_held = true then none
    else some (⟨dispatch_snapshot_submit σ.slot name t, c :: σ.waiting⟩, [])
  | Action.drain =>
    some (⟨(xemu_android_process_snapshot_request w σ.slot).1, σ.waiting⟩,
      (xemu_android_process_snapshot_request w σ.slot).2)
  | Action.submit_return c =>
    if c ∈ σ.waiting ∧ σ.slot.lock_held = false ∧ σ.slot.done = true then
      some (⟨(dispatch_snapshot_return σ.slot).2, σ.waiting.erase c⟩,
        [Event.returned c (dispatch_snapshot_return σ.slot).1])
    else none

/-- A sequence of steps, with the calls made along the way. -/
def run (w : World) : Sys → List Action → Option (Sys × List Event)
  | σ, [] => some (σ, [])
  | σ, a :: rest =>
    match step w σ a with
    | none => none
    | some (σ1, e1) =>
      match run w σ1 rest with
      | none => none
      | some (σ2, e2) => some (σ2, e1 ++ e2)

/-- Whether an event is a call of an engine verb. -/
def isEngineVerb : Event → Bool
  | Event.engine_save _ => true
  | Event.engine_load _ => true
  | _ => false

/-- The number of engine verb calls in a trace. -/
def engineCalls (evs : List Event) : Nat := (evs.filter isEngineVerb).length

/-- An engine that fails every verb, with no storage and no graphics context. -/
def failingWorld : World :=
  ⟨⟨fun _ => true, fun _ => true⟩,
    ⟨none, false, none, fun _ => false, fun _ _ => 0, ⟨false, 0, 0, 0, 0, [], 0⟩, 0, true⟩⟩

/-- An engine that succeeds, with storage under `/d`, title "Halo", a current
`2 x 1` frame, and complete file writes. -/
def workingWorld : World :=
  ⟨⟨fun _ => false, fun _ => false⟩,
    ⟨some [47, 100], true, some halo, fun _ => true, fun _ d => d.length,
      ⟨true, 0, 0, 2, 1, [1, 2, 3, 4, 5, 6, 7, 8], 0⟩, 7, true⟩⟩

/-! ## Lemmas on the byte stream -/

theorem qemu_put_be32_eq (f : QEMUFile) (v : Nat) :
    qemu_put_be32 f v = ⟨f.data ++ be32 v, f.pos⟩ := by
  simp [qemu_put_be32, qemu_put_byte, be32]

theorem be32_length (v : Nat) : (be32 v).length = 4 := rfl

theorem be32Value_be32 (v : Nat) (hv : v < 2 ^ 32) :
    be32Value (v % 2 ^ 32 / 2 ^ 24 % 256) (v % 2 ^ 32 / 2 ^ 16 % 256)
      (v % 2 ^ 32 / 2 ^ 8 % 256) (v % 2 ^ 32 % 256) = v := by
  unfold be32Value
  norm_num at hv ⊢
  omega

theorem strlen_le (s : List Nat) : strlen s ≤ s.length := by
  unfold strlen
  exact (List.takeWhile_sublist _).length_le

theorem strlen_eq_length (s : List Nat) (h : ∀ b ∈ s, b ≠ 0) : strlen s = s.length := by
  unfold strlen
  induction s with
  | nil => rfl
  | cons a t ih =>
    have ha : a ≠ 0 := h a (List.mem_cons_self a t)
    have ht : ∀ b ∈ t, b ≠ 0 := fun b hb => h b (List.mem_cons_of_mem a hb)
    simp [List.takeWhile_cons, ha, ih ht]

theorem qemu_get_byte_unread (f : QEMUFile) (b : Nat) (r : List Nat)
    (h : f.unread = b :: r) :
    qemu_get_byte f = (b, ⟨f.data, f.pos + 1⟩) ∧ QEMUFile.unread ⟨f.data, f.pos + 1⟩ = r := by
  unfold QEMUFile.unread at h
  have hlt : f.pos < f.data.length := by
    by_contra hc
    rw [List.drop_of_length_le (by omega)] at h
    exact List.noConfusion h
  rw [List.drop_eq_getElem_cons hlt] at h
  injection h with h1 h2
  refine ⟨?_, ?_⟩
  · unfold qemu_get_byte
    rw [if_pos hlt, List.getD_eq_getElem _ _ hlt, h1]
  · exact h2

theorem qemu_get_be32_unread (f : QEMUFile) (b0 b1 b2 b3 : Nat) (r : List Nat)
    (h : f.unread = b0 :: b1 :: b2 :: b3 :: r) :
    qemu_get_be32 f = (be32Value b0 b1 b2 b3, ⟨f.data, f.pos + 4⟩) ∧
      QEMUFile.unread ⟨f.data, f.pos + 4⟩ = r := by
  obtain ⟨e0, h0⟩ := qemu_get_byte_unread f b0 _ h
  obtain ⟨e1, h1⟩ := qemu_get_byte_unread _ b1 _ h0
  obtain ⟨e2, h2⟩ := qemu_get_byte_unread _ b2 _ h1
  obtain ⟨e3, h3⟩ := qemu_get_byte_unread _ b3 _ h2
  refine ⟨?_, h3⟩
  unfold qemu_get_be32
  simp only [e0, e1, e2, e3, be32Value]

theorem qemu_get_buffer_unread (f : QEMUFile) (a r : List Nat) (h : f.unread = a ++ r) :
    (qemu_get_buffer f a.length).2 = ⟨f.data, f.pos + a.length⟩ ∧
      QEMUFile.unread ⟨f.data, f.pos + a.length⟩ = r := by
  unfold QEMUFile.unread at h
  refine ⟨?_, ?_⟩
  · unfold qemu_get_buffer
    simp [h]
  · unfold QEMUFile.unread
    simp only
    rw [← List.drop_drop, h, List.drop_left]

theorem qemu_get_be32_be32 (f : QEMUFile) (v : Nat) (r : List Nat) (hv : v < 2 ^ 32)
    (h : f.unread = be32 v ++ r) :
    qemu_get_be32 f = (v, ⟨f.data, f.pos + 4⟩) ∧ QEMUFile.unread ⟨f.data, f.pos + 4⟩ = r := by
  have h2 := qemu_get_be32_unread f _ _ _ _ r h
  rw [be32Value_be32 v hv] at h2
  exact h2

/-- Decoding a stream whose unread part is `magic`, any version, a declared
length `L` and at least `L` further bytes: the cursor moves by `12 + L`. -/
theorem offset_extra_data_skip (magic v : Nat) (f : QEMUFile) (payload rest : List Nat)
    (hm : magic < 2 ^ 32) (hL : payload.length < 2 ^ 32)
    (h : f.unread = be32 magic ++ (be32 v ++ (be32 payload.length ++ (payload ++ rest)))) :
    xemu_snapshots_offset_extra_data magic f = (true, ⟨f.data, f.pos + (12 + payload.length)⟩) ∧
      QEMUFile.unread ⟨f.data, f.pos + (12 + payload.length)⟩ = rest := by
  obtain ⟨e0, h0⟩ := qemu_get_be32_be32 f _ _ hm h
  obtain ⟨e1, h1⟩ := qemu_get_be32_unread _ _ _ _ _ _ h0
  obtain ⟨e2, h2⟩ := qemu_get_be32_be32 _ _ _ hL h1
  obtain ⟨e3, h3⟩ := qemu_get_buffer_unread _ _ _ h2
  have hpos : f.pos + 4 + 4 + 4 + payload.length = f.pos + (12 + payload.length) := by omega
  refine ⟨?_, ?_⟩
  · unfold xemu_snapshots_offset_extra_data
    rw [e0]
    dsimp only
    rw [if_neg (not_not.mpr rfl), e1]
    dsimp only
    rw [e2]
    dsimp only
    rw [e3, hpos]
  · rw [← hpos]
    exact h3

/-- The bytes appended by the encoder. -/
theorem save_extra_data_eq (magic version : Nat) (title : Option (List Nat)) (f : QEMUFile) :
    xemu_snapshots_save_extra_data magic version title f =
      ⟨f.data ++ (be32 magic ++ be32 version ++ be32 (4 + 1 + clampedTitleLen title + 4) ++
        ([0, 0, 0, 0] ++ [clampedTitleLen title] ++
          (title.getD []).take (clampedTitleLen title) ++ [0, 0, 0, 0])), f.pos⟩ := by
  have hn : (if (match title with
      | some t => strlen t
      | none => 0) > 255 then 255 else (match title with
      | some t => strlen t
      | none => 0)) = clampedTitleLen title := by
    unfold clampedTitleLen
    split <;> omega
  have hlt : clampedTitleLen title % 256 = clampedTitleLen title := by
    apply Nat.mod_eq_of_lt
    unfold clampedTitleLen
    omega
  unfold xemu_snapshots_save_extra_data
  simp only [hn]
  by_cases h0 : clampedTitleLen title = 0
  · simp [h0, qemu_put_be32_eq, qemu_put_byte, be32]
  · simp [h0, qemu_put_be32_eq, qemu_put_byte, qemu_put_buffer, hlt]
    simp [be32]

theorem take_title_length (title : Option (List Nat)) :
    ((title.getD []).take (clampedTitleLen title)).length = clampedTitleLen title := by
  rw [List.length_take]
  apply Nat.min_eq_left
  unfold clampedTitleLen
  cases title with
  | none => simp
  | some t =>
    have := strlen_le t
    simp only [Option.getD_some]
    omega

theorem clampedTitleLen_le (title : Option (List Nat)) : clampedTitleLen title ≤ 255 := by
  unfold clampedTitleLen
  omega

theorem clampedTitleLen_some (t : List Nat) (h : ∀ b ∈ t, b ≠ 0) :
    clampedTitleLen (some t) = min t.length 255 := by
  simp only [clampedTitleLen, strlen_eq_length t h]

/-- Decoding what the encoder appended after `pre`, followed by `rest`. -/
theorem offset_after_save (magic version : Nat) (title : Option (List Nat))
    (pre rest : List Nat) (hm : magic < 2 ^ 32) :
    xemu_snapshots_offset_extra_data magic
        ⟨(xemu_snapshots_save_extra_data magic version title ⟨pre, 0⟩).data ++ rest, pre.length⟩ =
      (true, ⟨(xemu_snapshots_save_extra_data magic version title ⟨pre, 0⟩).data ++ rest,
        pre.length + (21 + clampedTitleLen title)⟩) ∧
    QEMUFile.unread ⟨(xemu_snapshots_save_extra_data magic version title ⟨pre, 0⟩).data ++ rest,
        pre.length + (21 + clampedTitleLen title)⟩ = rest ∧
    (xemu_snapshots_save_extra_data magic version title ⟨pre, 0⟩).data.length =
      pre.length + (21 + clampedTitleLen title) := by
  have hle := clampedTitleLen_le title
  have hlen := take_title_length title
  rw [save_extra_data_eq]
  dsimp only
  generalize hp : ([0, 0, 0, 0] ++ [clampedTitleLen title] ++
    (title.getD []).take (clampedTitleLen title) ++ [0, 0, 0, 0]) = payload
  have hpl : payload.length = 4 + 1 + clampedTitleLen title + 4 := by
    rw [← hp]
    simp only [List.length_append, hlen]
    rfl
  rw [← hpl]
  have hL : payload.length < 2 ^ 32 := by
    rw [hpl]
    norm_num
    omega
  have hun : QEMUFile.unread ⟨pre ++ (be32 magic ++ be32 version ++ be32 payload.length ++
      payload) ++ rest, pre.length⟩ =
      be32 magic ++ (be32 version ++ (be32 payload.length ++ (payload ++ rest))) := by
    unfold QEMUFile.unread
    simp only [List.append_assoc, List.drop_left]
  obtain ⟨e, hr⟩ := offset_extra_data_skip magic version _ payload rest hm hL hun
  have h21 : 12 + payload.length = 21 + clampedTitleLen title := by omega
  rw [h21] at e hr
  refine ⟨e, hr, ?_⟩
  simp only [List.length_append, be32_length]
  omega

/-! ## Theorems on the extra-data codec -/

/-- C1: round trip of the extra-data chunk.  For every title and every byte
sequence `rest`, decoding the stream produced by the encoder (appended after
any primary state `pre`) followed by `rest` returns `true` and leaves the
cursor immediately after the chunk: the unread remainder is exactly `rest`. -/
theorem extra_data_round_trip (magic version : Nat) (title : Option (List Nat))
    (pre rest : List Nat) (hm : magic < 2 ^ 32) :
    (xemu_snapshots_offset_extra_data magic
      ⟨(xemu_snapshots_save_extra_data magic version title ⟨pre, 0⟩).data ++ rest,
        pre.length⟩).1 = true ∧
    (xemu_snapshots_offset_extra_data magic
      ⟨(xemu_snapshots_save_extra_data magic version title ⟨pre, 0⟩).data ++ rest,
        pre.length⟩).2.pos =
      (xemu_snapshots_save_extra_data magic version title ⟨pre, 0⟩).data.length ∧
    (xemu_snapshots_offset_extra_data magic
      ⟨(xemu_snapshots_save_extra_data magic version title ⟨pre, 0⟩).data ++ rest,
        pre.length⟩).2.unread = rest := by
  obtain ⟨e, hr, hl⟩ := offset_after_save magic version title pre rest hm
  rw [e]
  exact ⟨rfl, hl.symm, hr⟩

theorem extra_data_round_trip_witness :
    (xemu_snapshots_offset_extra_data exampleMagic
      ⟨(xemu_snapshots_save_extra_data exampleMagic 1 (some halo) ⟨[], 0⟩).data ++ [1, 2, 3],
        ([] : List Nat).length⟩).1 = true ∧
    (xemu_snapshots_offset_extra_data exampleMagic
      ⟨(xemu_snapshots_save_extra_data exampleMagic 1 (some halo) ⟨[], 0⟩).data ++ [1, 2, 3],
        ([] : List Nat).length⟩).2.pos =
      (xemu_snapshots_save_extra_data exampleMagic 1 (some halo) ⟨[], 0⟩).data.length ∧
    (xemu_snapshots_offset_extra_data exampleMagic
      ⟨(xemu_snapshots_save_extra_data exampleMagic 1 (some halo) ⟨[], 0⟩).data ++ [1, 2, 3],
        ([] : List Nat).length⟩).2.unread = [1, 2, 3] :=
  extra_data_round_trip exampleMagic 1 (some halo) [] [1, 2, 3] (by decide)

/-- C2 (as stated, refuted): for the title "Halo" the decoder's cursor ends at
byte 25 of the encoded chunk, that is 21 bytes beyond the 4 magic bytes, not
the `12 + titleLength = 16` bytes of the claim. -/
theorem consumed_beyond_magic_halo_counterexample :
    (xemu_snapshots_offset_extra_data exampleMagic
      ⟨(xemu_snapshots_save_extra_data exampleMagic 1 (some halo) ⟨[], 0⟩).data, 0⟩).2.pos = 25 ∧
    (xemu_snapshots_offset_extra_data exampleMagic
      ⟨(xemu_snapshots_save_extra_data exampleMagic 1 (some halo) ⟨[], 0⟩).data, 0⟩).2.pos - 4 ≠
      12 + min halo.length 255 := by
  decide

/-- C2 (amended): for every NUL-free title, decoding a chunk that was just
encoded with that title consumes exactly `17 + titleLength` bytes beyond the 4
magic bytes, where `titleLength = min (length of the title) 255`. -/
theorem consumed_beyond_magic (magic version : Nat) (t : List Nat) (rest : List Nat)
    (hm : magic < 2 ^ 32) (hnul : ∀ b ∈ t, b ≠ 0) :
    (xemu_snapshots_offset_extra_data magic
      ⟨(xemu_snapshots_save_extra_data magic version (some t) ⟨[], 0⟩).data ++ rest, 0⟩).2.pos =
      4 + (17 + min t.length 255) := by
  obtain ⟨e, _, _⟩ := offset_after_save magic version (some t) [] rest hm
  rw [List.length_nil] at e
  rw [e, clampedTitleLen_some t hnul]
  simp only
  omega

theorem consumed_beyond_magic_witness :
    (xemu_snapshots_offset_extra_data exampleMagic
      ⟨(xemu_snapshots_save_extra_data exampleMagic 1 (some halo) ⟨[], 0⟩).data ++ [9], 0⟩).2.pos =
      4 + (17 + min halo.length 255) :=
  consumed_beyond_magic exampleMagic 1 halo [9] (by decide) (by decide)

/-- C3: backward compatibility.  For every stream with at least 4 unread bytes
whose next 4 bytes, read as a big-endian 32-bit integer, differ from the magic,
the decoder leaves the stream exactly as it was: the cursor is where it was
before the call. -/
theorem offset_extra_data_magic_mismatch (magic : Nat) (f : QEMUFile) (b0 b1 b2 b3 : Nat)
    (r : List Nat) (h : f.unread = b0 :: b1 :: b2 :: b3 :: r)
    (hne : (b0 * 2 ^ 24 + b1 * 2 ^ 16 + b2 * 2 ^ 8 + b3) % 2 ^ 32 ≠ magic) :
    (xemu_snapshots_offset_extra_data magic f).2.pos = f.pos ∧
      (xemu_snapshots_offset_extra_data magic f).2 = f := by
  obtain ⟨e, _⟩ := qemu_get_be32_unread f b0 b1 b2 b3 r h
  have hlen : f.pos + 4 ≤ f.data.length := by
    have hl := congrArg List.length h
    unfold QEMUFile.unread at hl
    simp only [List.length_drop, List.length_cons] at hl
    omega
  have hf : (xemu_snapshots_offset_extra_data magic f).2 = f := by
    unfold xemu_snapshots_offset_extra_data
    rw [e]
    dsimp only
    have hne2 : be32Value b0 b1 b2 b3 ≠ magic := hne
    rw [if_pos hne2]
    dsimp only
    unfold qemu_file_skip
    dsimp only
    rw [if_pos (by omega)]
    have hpos : ((((f.pos + 4 : Nat) : Int) + (-4)).toNat) = f.pos := by omega
    rw [hpos]
  exact ⟨by rw [hf], hf⟩

theorem offset_extra_data_magic_mismatch_witness :
    (xemu_snapshots_offset_extra_data exampleMagic ⟨[5, 1, 2, 3, 4, 6], 1⟩).2.pos = 1 ∧
      (xemu_snapshots_offset_extra_data exampleMagic ⟨[5, 1, 2, 3, 4, 6], 1⟩).2 =
        ⟨[5, 1, 2, 3, 4, 6], 1⟩ :=
  offset_extra_data_magic_mismatch exampleMagic ⟨[5, 1, 2, 3, 4, 6], 1⟩ 1 2 3 4 [6] rfl
    (by decide)

/-- C4: forward compatibility.  For every stream whose unread part is the
magic, any version value `v`, a big-endian declared length `L` and at least `L`
further bytes, the decoder returns `true` and advances the cursor by exactly
`12 + L` bytes, whatever `v` and the payload bytes are. -/
theorem offset_extra_data_forward_compat (magic v L : Nat) (f : QEMUFile) (tail : List Nat)
    (hm : magic < 2 ^ 32) (hL : L < 2 ^ 32) (hlen : L ≤ tail.length)
    (h : f.unread = be32 magic ++ be32 v ++ be32 L ++ tail) :
    (xemu_snapshots_offset_extra_data magic f).1 = true ∧
      (xemu_snapshots_offset_extra_data magic f).2.pos = f.pos + (12 + L) ∧
      (xemu_snapshots_offset_extra_data magic f).2.unread = tail.drop L := by
  have htake : (tail.take L).length = L := by
    rw [List.length_take]
    exact Nat.min_eq_left hlen
  have h2 : f.unread = be32 magic ++ (be32 v ++ (be32 (tail.take L).length ++
      (tail.take L ++ tail.drop L))) := by
    rw [htake, List.take_append_drop, h]
    simp only [List.append_assoc]
  obtain ⟨e, hr⟩ := offset_extra_data_skip magic v f (tail.take L) (tail.drop L) hm
    (by rw [htake]; exact hL) h2
  rw [htake] at e hr
  rw [e]
  exact ⟨rfl, rfl, hr⟩

theorem offset_extra_data_forward_compat_witness :
    (xemu_snapshots_offset_extra_data exampleMagic
      ⟨be32 exampleMagic ++ be32 77 ++ be32 3 ++ [1, 2, 3, 4, 5], 0⟩).1 = true ∧
    (xemu_snapshots_offset_extra_data exampleMagic
      ⟨be32 exampleMagic ++ be32 77 ++ be32 3 ++ [1, 2, 3, 4, 5], 0⟩).2.pos = 0 + (12 + 3) ∧
    (xemu_snapshots_offset_extra_data exampleMagic
      ⟨be32 exampleMagic ++ be32 77 ++ be32 3 ++ [1, 2, 3, 4, 5], 0⟩).2.unread =
        [1, 2, 3, 4, 5].drop 3 :=
  offset_extra_data_forward_compat exampleMagic 77 3
    ⟨be32 exampleMagic ++ be32 77 ++ be32 3 ++ [1, 2, 3, 4, 5], 0⟩ [1, 2, 3, 4, 5]
    (by decide) (by decide) (by decide) rfl

/-- C5: encode layout.  For every NUL-free title of length `len` and
`n = min len 255`, the encoder appends exactly `21 + n` bytes: the magic, the
version and `declaredLength = 4 + 1 + n + 4` as big-endian 32-bit integers,
four zero bytes, one byte equal to `n`, the first `n` bytes of the title, and
four zero bytes; the read cursor is untouched. -/
theorem save_extra_data_layout (magic version : Nat) (t : List Nat) (f : QEMUFile)
    (hnul : ∀ b ∈ t, b ≠ 0) :
    (xemu_snapshots_save_extra_data magic version (some t) f).data =
      f.data ++ (be32 magic ++ be32 version ++ be32 (4 + 1 + min t.length 255 + 4) ++
        [0, 0, 0, 0] ++ [min t.length 255] ++ t.take (min t.length 255) ++ [0, 0, 0, 0]) ∧
    (xemu_snapshots_save_extra_data magic version (some t) f).data.length =
      f.data.length + (21 + min t.length 255) ∧
    (xemu_snapshots_save_extra_data magic version (some t) f).pos = f.pos := by
  have hlen := take_title_length (some t)
  rw [save_extra_data_eq, clampedTitleLen_some t hnul] at *
  simp only [Option.getD_some] at hlen ⊢
  refine ⟨by simp only [List.append_assoc], ?_, trivial⟩
  simp only [List.length_append, be32_length, hlen, List.length_cons, List.length_nil]
  omega

theorem save_extra_data_layout_witness :
    (xemu_snapshots_save_extra_data exampleMagic 1 (some halo) ⟨[], 0⟩).data =
      [] ++ (be32 exampleMagic ++ be32 1 ++ be32 (4 + 1 + min halo.length 255 + 4) ++
        [0, 0, 0, 0] ++ [min halo.length 255] ++ halo.take (min halo.length 255) ++
        [0, 0, 0, 0]) ∧
    (xemu_snapshots_save_extra_data exampleMagic 1 (some halo) ⟨[], 0⟩).data.length =
      ([] : List Nat).length + (21 + min halo.length 255) ∧
    (xemu_snapshots_save_extra_data exampleMagic 1 (some halo) ⟨[], 0⟩).pos = 0 :=
  save_extra_data_layout exampleMagic 1 halo ⟨[], 0⟩ (by decide)

/-- The 25 bytes written for the title "Halo" with magic "xemu" and version 1. -/
theorem save_extra_data_halo_bytes :
    (xemu_snapshots_save_extra_data exampleMagic 1 (some halo) ⟨[], 0⟩).data =
      [0x78, 0x65, 0x6d, 0x75, 0, 0, 0, 1, 0, 0, 0, 13, 0, 0, 0, 0, 4, 72, 97, 108, 111,
        0, 0, 0, 0] := by
  decide

/-! ## Lemmas on `sanitize_snapshot_name` -/

theorem sanitize_loop_eq (n : Nat) (s acc : List Nat) :
    sanitize_loop n s acc =
      acc ++ ((s.takeWhile (fun b => b != 0)).take (n - 1 - acc.length)).map sanitizeChar := by
  induction s generalizing acc with
  | nil => simp [sanitize_loop]
  | cons ch rest ih =>
    unfold sanitize_loop
    by_cases hc : ch ≠ 0 ∧ acc.length + 1 < n
    · rw [if_pos hc]
      obtain ⟨k, hk⟩ : ∃ k, n - 1 - acc.length = k + 1 := ⟨n - 1 - acc.length - 1, by omega⟩
      have hk2 : n - 1 - (acc.length + 1) = k := by omega
      have htw : (ch :: rest).takeWhile (fun b => b != 0) =
          ch :: rest.takeWhile (fun b => b != 0) := by
        simp [List.takeWhile_cons, hc.1]
      rw [htw, hk, List.take_succ_cons, List.map_cons]
      dsimp only
      split
      · rename_i hs
        rw [ih, List.length_append, List.length_singleton, hk2]
        simp [sanitizeChar, hs]
      · rename_i hs
        rw [ih, List.length_append, List.length_singleton, hk2]
        simp [sanitizeChar, hs]
    · rw [if_neg hc]
      by_cases h0 : ch = 0
      · simp [h0]
      · have hz : n - 1 - acc.length = 0 := by
          have : ¬ (acc.length + 1 < n) := fun h => hc ⟨h0, h⟩
          omega
        simp [hz]

theorem sanitizeChar_isStemChar (ch : Nat) : IsStemChar (sanitizeChar ch) := by
  unfold sanitizeChar IsStemChar g_ascii_isalnum
  split
  · rename_i h
    simp only [Bool.or_eq_true, Bool.and_eq_true, decide_eq_true_eq, beq_iff_eq] at h
    omega
  · omega

theorem sanitizeChar_of_stemChar (b : Nat) (h : IsStemChar b) : sanitizeChar b = b := by
  unfold IsStemChar at h
  have hb : b % 256 = b := Nat.mod_eq_of_lt (by omega)
  unfold sanitizeChar g_ascii_isalnum
  rw [hb, if_pos]
  simp only [Bool.or_eq_true, Bool.and_eq_true, decide_eq_true_eq, beq_iff_eq]
  omega

theorem sanitizeChar_of_not_stemChar (b : Nat) (hb : b < 256) (h : ¬ IsStemChar b) :
    sanitizeChar b = 95 := by
  have hm : b % 256 = b := Nat.mod_eq_of_lt hb
  unfold sanitizeChar g_ascii_isalnum
  rw [hm, if_neg]
  unfold IsStemChar at h
  simp only [Bool.or_eq_true, Bool.and_eq_true, decide_eq_true_eq, beq_iff_eq]
  omega

theorem isStemChar_ne_zero (b : Nat) (h : IsStemChar b) : b ≠ 0 := by
  unfold IsStemChar at h
  omega

theorem takeWhile_ne_zero_eq (s : List Nat) (h : ∀ b ∈ s, b ≠ 0) :
    s.takeWhile (fun b => b != 0) = s := by
  rw [List.takeWhile_eq_self_iff]
  intro b hb
  simpa using h b hb

theorem map_sanitizeChar_of_stem (s : List Nat) (h : ∀ b ∈ s, IsStemChar b) :
    s.map sanitizeChar = s := by
  induction s with
  | nil => rfl
  | cons a t ih =>
    rw [List.map_cons, sanitizeChar_of_stemChar a (h a (List.mem_cons_self a t)),
      ih (fun b hb => h b (List.mem_cons_of_mem a hb))]

/-- Sanitizing a non-empty stem made of stem characters, of length below
`out_len`, returns it unchanged. -/
theorem sanitize_of_stem (s : List Nat) (n : Nat) (hne : s ≠ []) (hlen : s.length + 1 ≤ n)
    (h : ∀ b ∈ s, IsStemChar b) : sanitize_snapshot_name (some s) n = some s := by
  have hnz : ∀ b ∈ s, b ≠ 0 := fun b hb => isStemChar_ne_zero b (h b hb)
  have hloop : sanitize_loop n s [] = s := by
    rw [sanitize_loop_eq, takeWhile_ne_zero_eq s hnz, List.nil_append, List.length_nil,
      List.take_of_length_le (by omega), map_sanitizeChar_of_stem s h]
  have hhead : s.headD 0 ≠ 0 := by
    cases s with
    | nil => exact absurd rfl hne
    | cons a t => exact hnz a (List.mem_cons_self a t)
  have hl : s.length ≠ 0 := fun h0 => hne (List.length_eq_zero.mp h0)
  unfold sanitize_snapshot_name
  rw [if_neg (by omega)]
  dsimp only
  rw [if_neg hhead, hloop, if_neg hl]

theorem snapshotLit_stem : ∀ b ∈ snapshotLit, IsStemChar b := by decide

theorem g_strlcpy_snapshotLit : g_strlcpy snapshotLit 128 = snapshotLit := by decide

/-- The result of the loop on a non-empty C string with the 128-byte buffer. -/
theorem sanitize_some_eq (s : List Nat) (h0 : s.headD 0 ≠ 0) :
    sanitize_snapshot_name (some s) 128 =
      some (((s.takeWhile (fun b => b != 0)).take 127).map sanitizeChar) ∧
    ((s.takeWhile (fun b => b != 0)).take 127).map sanitizeChar ≠ [] := by
  have hloop : sanitize_loop 128 s [] =
      ((s.takeWhile (fun b => b != 0)).take 127).map sanitizeChar := by
    rw [sanitize_loop_eq]
    rfl
  have hne : ((s.takeWhile (fun b => b != 0)).take 127).map sanitizeChar ≠ [] := by
    cases s with
    | nil => exact absurd rfl h0
    | cons a t =>
      have ha : a ≠ 0 := h0
      simp [List.takeWhile_cons, ha]
  refine ⟨?_, hne⟩
  unfold sanitize_snapshot_name
  rw [if_neg (by decide)]
  dsimp only
  rw [if_neg h0, hloop, if_neg (fun h => hne (List.length_eq_zero.mp h))]

/-! ## Theorems on `sanitize_snapshot_name` -/

/-- C6: `sanitize_snapshot_name` with the 128-byte buffer is idempotent.  For
every snapshot name (of any length, in particular every length `< 128`) the
call yields a stem, and sanitizing that stem yields the same stem again. -/
theorem sanitize_idempotent (name : List Nat) :
    ∃ stem, sanitize_snapshot_name (some name) 128 = some stem ∧
      sanitize_snapshot_name (some stem) 128 = some stem := by
  by_cases h0 : name.headD 0 = 0
  · refine ⟨snapshotLit, ?_, by decide⟩
    unfold sanitize_snapshot_name
    rw [if_neg (by decide)]
    dsimp only
    rw [if_pos h0, g_strlcpy_snapshotLit]
  · obtain ⟨e, hne⟩ := sanitize_some_eq name h0
    refine ⟨_, e, ?_⟩
    apply sanitize_of_stem _ 128 hne
    · rw [List.length_map, List.length_take]
      omega
    · intro b hb
      obtain ⟨a, _, rfl⟩ := List.mem_map.mp hb
      exact sanitizeChar_isStemChar a

/-- C7: character mapping.  For every non-empty name of length `< 128` (a C
string: bytes `< 256`, none of them NUL) the stem has the length of the name,
and at every position `i` the stem byte is the name byte when that is an ASCII
letter, an ASCII digit, `_` or `-`, and `_` (95) otherwise; in particular it is
`_` for every byte `≥ 0x80`. -/
theorem sanitize_char_mapping (name : List Nat) (hne : name ≠ []) (hlen : name.length < 128)
    (hb : ∀ b ∈ name, b ≠ 0 ∧ b < 256) :
    ∃ stem, sanitize_snapshot_name (some name) 128 = some stem ∧
      stem.length = name.length ∧
      (∀ i, i < name.length →
        stem.getD i 0 = if IsStemChar (name.getD i 0) then name.getD i 0 else 95) ∧
      (∀ i, i < name.length → 128 ≤ name.getD i 0 → stem.getD i 0 = 95) := by
  have hnz : ∀ b ∈ name, b ≠ 0 := fun b h => (hb b h).1
  have h0 : name.headD 0 ≠ 0 := by
    cases name with
    | nil => exact absurd rfl hne
    | cons a t => exact hnz a (List.mem_cons_self a t)
  obtain ⟨e, _⟩ := sanitize_some_eq name h0
  rw [takeWhile_ne_zero_eq name hnz, List.take_of_length_le (by omega)] at e
  have hmap : ∀ i, i < name.length →
      (name.map sanitizeChar).getD i 0 =
        if IsStemChar (name.getD i 0) then name.getD i 0 else 95 := by
    intro i hi
    have hi2 : i < (name.map sanitizeChar).length := by rw [List.length_map]; exact hi
    rw [List.getD_eq_getElem _ _ hi2, List.getD_eq_getElem _ _ hi, List.getElem_map]
    by_cases hs : IsStemChar name[i]
    · rw [if_pos hs, sanitizeChar_of_stemChar _ hs]
    · rw [if_neg hs, sanitizeChar_of_not_stemChar _ (hb _ (List.getElem_mem _)).2 hs]
  refine ⟨name.map sanitizeChar, e, List.length_map _ _, hmap, ?_⟩
  intro i hi h128
  rw [hmap i hi, if_neg]
  unfold IsStemChar
  omega

theorem sanitize_char_mapping_witness :
    ∃ stem, sanitize_snapshot_name (some [77, 121, 32, 71, 46, 200]) 128 = some stem ∧
      stem.length = [77, 121, 32, 71, 46, 200].length ∧
      (∀ i, i < [77, 121, 32, 71, 46, 200].length →
        stem.getD i 0 = if IsStemChar ([77, 121, 32, 71, 46, 200].getD i 0)
          then [77, 121, 32, 71, 46, 200].getD i 0 else 95) ∧
      (∀ i, i < [77, 121, 32, 71, 46, 200].length →
        128 ≤ [77, 121, 32, 71, 46, 200].getD i 0 → stem.getD i 0 = 95) :=
  sanitize_char_mapping [77, 121, 32, 71, 46, 200] (by decide) (by decide) (by decide)

/-- C8 (as stated, refuted): the name `"!!!"`, made of replaced characters
only, is sanitized to `"___"`, not to the fallback stem `"snapshot"`. -/
theorem sanitize_all_replaced_counterexample :
    sanitize_snapshot_name (some [33, 33, 33]) 128 = some [95, 95, 95] ∧
      sanitize_snapshot_name (some [33, 33, 33]) 128 ≠ some snapshotLit := by
  decide

/-- C8 (amended): a null or empty snapshot name yields the literal stem
`"snapshot"`; a non-empty name all of whose characters are replaced characters
yields a stem of underscores, one for each of its first 127 characters. -/
theorem sanitize_fallback :
    sanitize_snapshot_name none 128 = some snapshotLit ∧
    sanitize_snapshot_name (some []) 128 = some snapshotLit ∧
    ∀ name : List Nat, name ≠ [] → (∀ b ∈ name, b ≠ 0 ∧ b < 256 ∧ ¬ IsStemChar b) →
      sanitize_snapshot_name (some name) 128 =
        some (List.replicate (min name.length 127) 95) := by
  refine ⟨by decide, by decide, ?_⟩
  intro name hne hb
  have hnz : ∀ b ∈ name, b ≠ 0 := fun b h => (hb b h).1
  have h0 : name.headD 0 ≠ 0 := by
    cases name with
    | nil => exact absurd rfl hne
    | cons a t => exact hnz a (List.mem_cons_self a t)
  obtain ⟨e, _⟩ := sanitize_some_eq name h0
  rw [e, takeWhile_ne_zero_eq name hnz]
  congr 1
  rw [List.eq_replicate_iff]
  refine ⟨by rw [List.length_map, List.length_take, Nat.min_comm], ?_⟩
  intro b hmem
  obtain ⟨a, ha, rfl⟩ := List.mem_map.mp hmem
  have ha2 := hb a (List.mem_of_mem_take ha)
  exact sanitizeChar_of_not_stemChar a ha2.2.1 ha2.2.2

theorem sanitize_fallback_witness :
    sanitize_snapshot_name (some [33, 46, 47]) 128 =
      some (List.replicate (min [33, 46, 47].length 127) 95) :=
  sanitize_fallback.2.2 [33, 46, 47] (by decide) (by decide)

/-- C9: the stem produced with the 128-byte buffer of the sidecar writer is
filesystem-safe for every input name (null, empty, of any length and content):
it is non-empty, at most 127 bytes long, and every byte of it is an ASCII
letter, an ASCII digit, `_` or `-`, hence never `/`, `\`, `.` or NUL. -/
theorem sanitize_stem_safe (name : Option (List Nat)) :
    ∃ stem, sanitize_snapshot_name name 128 = some stem ∧ stem ≠ [] ∧ stem.length ≤ 127 ∧
      (∀ b ∈ stem, IsStemChar b) ∧ (∀ b ∈ stem, b ≠ 47 ∧ b ≠ 92 ∧ b ≠ 46 ∧ b ≠ 0) := by
  have key : ∃ stem, sanitize_snapshot_name name 128 = some stem ∧ stem ≠ [] ∧
      stem.length ≤ 127 ∧ (∀ b ∈ stem, IsStemChar b) := by
    cases name with
    | none => exact ⟨snapshotLit, by decide, by decide, by decide, snapshotLit_stem⟩
    | some s =>
      by_cases h0 : s.headD 0 = 0
      · refine ⟨snapshotLit, ?_, by decide, by decide, snapshotLit_stem⟩
        unfold sanitize_snapshot_name
        rw [if_neg (by decide)]
        dsimp only
        rw [if_pos h0, g_strlcpy_snapshotLit]
      · obtain ⟨e, hne⟩ := sanitize_some_eq s h0
        refine ⟨_, e, hne, ?_, ?_⟩
        · rw [List.length_map, List.length_take]
          omega
        · intro b hb
          obtain ⟨a, _, rfl⟩ := List.mem_map.mp hb
          exact sanitizeChar_isStemChar a
  obtain ⟨stem, e, hne, hl, hs⟩ := key
  refine ⟨stem, e, hne, hl, hs, ?_⟩
  intro b hb
  have := hs b hb
  unfold IsStemChar at this
  omega

/-! ## Lemmas on the downsampling loops -/

theorem memcpy_succ (dst : List Nat) (doff : Nat) (src : List Nat) (soff n : Nat) :
    memcpy dst doff src soff (n + 1) =
      (memcpy dst doff src soff n).set (doff + n) (src.getD (soff + n) 0) := by
  unfold memcpy
  rw [List.range_succ, List.foldl_append]
  rfl

theorem memcpy_length (dst : List Nat) (doff : Nat) (src : List Nat) (soff n : Nat) :
    (memcpy dst doff src soff n).length = dst.length := by
  induction n with
  | zero => rfl
  | succ n ih => rw [memcpy_succ, List.length_set, ih]

theorem memcpy_getElem?_outside (dst : List Nat) (doff : Nat) (src : List Nat) (soff n i : Nat)
    (h : i < doff ∨ doff + n ≤ i) : (memcpy dst doff src soff n)[i]? = dst[i]? := by
  induction n with
  | zero => rfl
  | succ n ih =>
    rw [memcpy_succ, List.getElem?_set, if_neg (by omega)]
    exact ih (by omega)

theorem memcpy_getElem?_inside (dst : List Nat) (doff : Nat) (src : List Nat) (soff n k : Nat)
    (hk : k < n) (hfit : doff + n ≤ dst.length) :
    (memcpy dst doff src soff n)[doff + k]? = some (src.getD (soff + k) 0) := by
  induction n with
  | zero => omega
  | succ n ih =>
    rw [memcpy_succ, List.getElem?_set]
    by_cases hkn : k = n
    · subst hkn
      rw [if_pos rfl, if_pos (by rw [memcpy_length]; omega)]
    · rw [if_neg (by omega)]
      exact ih (by omega) (by omega)

/-- A run of `n` consecutive 4-byte pixel writes starting at pixel `base`. -/
theorem fold_pixel_writes (g : Nat → Nat) (base : Nat) (src dst : List Nat) (n : Nat)
    (hfit : (base + n) * 4 ≤ dst.length) :
    ((List.range n).foldl (fun d x => memcpy d ((base + x) * 4) src (g x) 4) dst).length =
        dst.length ∧
    (∀ i, i < base * 4 ∨ (base + n) * 4 ≤ i →
      ((List.range n).foldl (fun d x => memcpy d ((base + x) * 4) src (g x) 4) dst)[i]? =
        dst[i]?) ∧
    (∀ x c, x < n → c < 4 →
      ((List.range n).foldl (fun d x => memcpy d ((base + x) * 4) src (g x) 4) dst)[
        (base + x) * 4 + c]? = some (src.getD (g x + c) 0)) := by
  induction n with
  | zero =>
    refine ⟨rfl, fun i _ => rfl, ?_⟩
    intro x c hx
    omega
  | succ n ih =>
    obtain ⟨ihl, iho, ihi⟩ := ih (by omega)
    rw [List.range_succ, List.foldl_append]
    simp only [List.foldl_cons, List.foldl_nil]
    refine ⟨by rw [memcpy_length, ihl], ?_, ?_⟩
    · intro i hi
      rw [memcpy_getElem?_outside _ _ _ _ _ _ (by omega)]
      exact iho i (by omega)
    · intro x c hx hc
      by_cases hxn : x = n
      · subst hxn
        exact memcpy_getElem?_inside _ _ _ _ _ _ hc (by rw [ihl]; omega)
      · rw [memcpy_getElem?_outside _ _ _ _ _ _ (by omega)]
        exact ihi x c (by omega) hc

theorem wrapInt64_natCast (n : Nat) (h : n < 2 ^ 63) : wrapInt64 (n : Int) = (n : Int) := by
  unfold wrapInt64
  norm_num at h ⊢
  omega

theorem wrapInt32_natCast (n : Nat) (h : n < 2 ^ 31) : wrapInt32 (n : Int) = (n : Int) := by
  unfold wrapInt32
  norm_num at h ⊢
  omega

theorem toSizeT_natCast (n : Nat) (h : n < 2 ^ 64) : toSizeT (n : Int) = n := by
  unfold toSizeT
  norm_num at h ⊢
  omega

/-- The source coordinate computed by the loops, for a source extent `s` in the
`GLint` range and a destination coordinate `t` below the destination extent
`d ≤ 320`: no conversion changes the value `t * s / d`. -/
theorem src_coord_eq (s t d : Nat) (hs : s < 2 ^ 31) (hd0 : 0 < d) (hd : d ≤ 320) (ht : t < d) :
    wrapInt32 ((wrapInt64 ((t : Int) * (s : Int))).tdiv (d : Int)) = ((t * s / d : Nat) : Int) ∧
      t * s / d < 2 ^ 31 ∧ (0 < s → t * s / d < s) := by
  have hmul : t * s ≤ 319 * s := Nat.mul_le_mul_right s (by omega)
  have hlt : t * s < 2 ^ 63 := by
    norm_num at hs ⊢
    omega
  have hq : t * s / d ≤ t * s := Nat.div_le_self _ _
  have hq2 : 0 < s → t * s / d < s := by
    intro h0
    rw [Nat.div_lt_iff_lt_mul hd0]
    calc t * s < d * s := Nat.mul_lt_mul_of_pos_right ht h0
      _ = s * d := Nat.mul_comm d s
  have hq3 : t * s / d < 2 ^ 31 := by
    rcases Nat.eq_zero_or_pos s with h0 | h0
    · subst h0
      simp
    · exact lt_trans (hq2 h0) hs
  refine ⟨?_, hq3, hq2⟩
  have hc : ((t : Int) * (s : Int)) = ((t * s : Nat) : Int) := by push_cast; rfl
  rw [hc, wrapInt64_natCast _ hlt, ← Int.ofNat_tdiv, wrapInt32_natCast _ hq3]

theorem downsample_pixel_eq (W sy : Nat) (src dst : List Nat) (x y : Nat) (hW : W < 2 ^ 31)
    (hsy : sy < 2 ^ 31) (hx : x < 320) (hy : y < 240) :
    downsample_pixel (W : Int) src y (sy : Int) dst x =
      memcpy dst ((y * 320 + x) * 4) src ((sy * W + x * W / 320) * 4) 4 := by
  obtain ⟨hq, hq31, _⟩ := src_coord_eq W x 320 hW (by decide) (by decide) hx
  have hprod : sy * W ≤ (2 ^ 31 - 1) * (2 ^ 31 - 1) :=
    Nat.mul_le_mul (by norm_num at hsy ⊢; omega) (by norm_num at hW ⊢; omega)
  unfold downsample_pixel SNAPSHOT_PREVIEW_WIDTH
  dsimp only
  rw [hq, toSizeT_natCast sy (by norm_num at hsy ⊢; omega),
    toSizeT_natCast W (by norm_num at hW ⊢; omega),
    toSizeT_natCast _ (by norm_num at hq31 ⊢; omega)]
  have e1 : ((y * 320) % 2 ^ 64 + x) % 2 ^ 64 * 4 % 2 ^ 64 = (y * 320 + x) * 4 := by
    norm_num
    omega
  have e2 : ((sy * W) % 2 ^ 64 + x * W / 320) % 2 ^ 64 * 4 % 2 ^ 64 =
      (sy * W + x * W / 320) * 4 := by
    norm_num at hprod hq31 ⊢
    omega
  rw [e1, e2]

/-- The effect of the inner loop for the row `y` on a 307200-byte buffer. -/
theorem downsample_row_spec (W H : Nat) (src dst : List Nat) (y : Nat) (hW : W < 2 ^ 31)
    (hH : H < 2 ^ 31) (hy : y < 240) (hlen : dst.length = 307200) :
    (downsample_row (W : Int) (H : Int) src dst y).length = 307200 ∧
    (∀ i, i < y * 320 * 4 → (downsample_row (W : Int) (H : Int) src dst y)[i]? = dst[i]?) ∧
    (∀ x c, x < 320 → c < 4 →
      (downsample_row (W : Int) (H : Int) src dst y)[(y * 320 + x) * 4 + c]? =
        some (src.getD ((y * H / 240 * W + x * W / 320) * 4 + c) 0)) := by
  obtain ⟨hq, hq31, _⟩ := src_coord_eq H y 240 hH (by decide) (by decide) hy
  have hrow : downsample_row (W : Int) (H : Int) src dst y =
      (List.range 320).foldl
        (fun d x => memcpy d ((y * 320 + x) * 4) src ((y * H / 240 * W + x * W / 320) * 4) 4)
        dst := by
    unfold downsample_row SNAPSHOT_PREVIEW_HEIGHT SNAPSHOT_PREVIEW_WIDTH
    dsimp only
    rw [hq]
    apply List.foldl_ext
    intro d x hx
    exact downsample_pixel_eq W _ src d x y hW hq31 (List.mem_range.mp hx) hy
  obtain ⟨hl, ho, hi⟩ := fold_pixel_writes (fun x => (y * H / 240 * W + x * W / 320) * 4)
    (y * 320) src dst 320 (by omega)
  rw [hrow]
  exact ⟨by rw [hl, hlen], fun i h => ho i (Or.inl h), fun x c hx hc => hi x c hx hc⟩

/-- The effect of the first `m` iterations of the outer loop. -/
theorem downsample_rows_spec (W H : Nat) (src dst : List Nat) (m : Nat) (hW : W < 2 ^ 31)
    (hH : H < 2 ^ 31) (hm : m ≤ 240) (hlen : dst.length = 307200) :
    ((List.range m).foldl (downsample_row (W : Int) (H : Int) src) dst).length = 307200 ∧
    (∀ x y c, x < 320 → y < m → c < 4 →
      ((List.range m).foldl (downsample_row (W : Int) (H : Int) src) dst)[
        (y * 320 + x) * 4 + c]? =
        some (src.getD ((y * H / 240 * W + x * W / 320) * 4 + c) 0)) := by
  induction m with
  | zero =>
    refine ⟨hlen, ?_⟩
    intro x y c _ hy
    omega
  | succ m ih =>
    obtain ⟨ihl, ihi⟩ := ih (by omega)
    obtain ⟨rl, ro, ri⟩ := downsample_row_spec W H src
      ((List.range m).foldl (downsample_row (W : Int) (H : Int) src) dst) m hW hH (by omega) ihl
    rw [List.range_succ, List.foldl_append]
    simp only [List.foldl_cons, List.foldl_nil]
    refine ⟨rl, ?_⟩
    intro x y c hx hy hc
    by_cases hym : y = m
    · subst hym
      exact ri x c hx hc
    · rw [ro _ (by omega)]
      exact ihi x y c hx (by omega) hc

/-- The source offset read for a destination pixel lies inside a source buffer
of `W * H * 4` bytes. -/
theorem src_offset_in_bounds (W H x y c : Nat) (hW : 0 < W) (hH : 0 < H) (hx : x < 320)
    (hy : y < 240) (hc : c < 4) :
    (y * H / 240 * W + x * W / 320) * 4 + c < W * H * 4 := by
  have hsx : x * W / 320 < W := by
    rw [Nat.div_lt_iff_lt_mul (by decide)]
    calc x * W < 320 * W := Nat.mul_lt_mul_of_pos_right hx hW
      _ = W * 320 := Nat.mul_comm _ _
  have hsy : y * H / 240 < H := by
    rw [Nat.div_lt_iff_lt_mul (by decide)]
    calc y * H < 240 * H := Nat.mul_lt_mul_of_pos_right hy hH
      _ = H * 240 := Nat.mul_comm _ _
  have hrow : (y * H / 240 + 1) * W ≤ H * W := Nat.mul_le_mul_right W hsy
  rw [Nat.add_mul, Nat.one_mul] at hrow
  rw [Nat.mul_comm W H]
  omega

/-! ## Theorems on thumbnail capture -/

/-- C10: downsample reference.  For every source frame of size `srcW x srcH`
with `srcW, srcH ≥ 1` (values of a `GLint` viewport, hence `< 2 ^ 31`) whose
pixel read succeeds and delivers `srcW * srcH * 4` bytes, the capture returns
an image of exactly `320 * 240 * 4 = 307200` bytes, and for every destination
pixel `(x, y)` with `x < 320`, `y < 240` each of its 4 bytes equals the
corresponding byte of the source pixel at column `x * srcW / 320`, row
`y * srcH / 240` (row-major, 4 bytes per pixel), which lies inside the source
buffer. -/
theorem capture_downsample_reference (gl : GLState) (tex srcW srcH : Nat)
    (hctx : gl.has_context = true) (htex : tex ≠ 0)
    (hw : gl.viewport2 = (srcW : Int)) (hh : gl.viewport3 = (srcH : Int))
    (hW1 : 1 ≤ srcW) (hH1 : 1 ≤ srcH) (hW : srcW < 2 ^ 31) (hH : srcH < 2 ^ 31)
    (herr : gl.gl_error = 0) (hlen : gl.read_pixels.length = srcW * srcH * 4) :
    ∃ img, capture_snapshot_thumbnail gl tex = some (img, 307200) ∧ img.length = 307200 ∧
      ∀ x y c, x < 320 → y < 240 → c < 4 →
        (y * srcH / 240 * srcW + x * srcW / 320) * 4 + c < gl.read_pixels.length ∧
        img[(y * 320 + x) * 4 + c]? =
          gl.read_pixels[(y * srcH / 240 * srcW + x * srcW / 320) * 4 + c]? := by
  obtain ⟨hl, hi⟩ := downsample_rows_spec srcW srcH gl.read_pixels
    (List.replicate 307200 0) 240 hW hH (le_refl _) (List.length_replicate _ _)
  refine ⟨downsample (srcW : Int) (srcH : Int) gl.read_pixels (List.replicate 307200 0),
    ?_, hl, ?_⟩
  · unfold capture_snapshot_thumbnail
    have h1 : (!gl.has_context || tex == 0) = false := by
      simp [hctx, htex]
    have h2 : ¬ (gl.viewport2 ≤ 0 ∨ gl.viewport3 ≤ 0) := by
      rw [hw, hh]
      omega
    rw [h1]
    simp only [Bool.false_eq_true, if_false]
    rw [if_neg h2, if_neg (not_not.mpr herr), hw, hh]
    rfl
  · intro x y c hx hy hc
    have hb := src_offset_in_bounds srcW srcH x y c hW1 hH1 hx hy hc
    rw [← hlen] at hb
    refine ⟨hb, ?_⟩
    have := hi x y c hx hy hc
    unfold downsample SNAPSHOT_PREVIEW_HEIGHT
    rw [this, List.getD_eq_getElem _ _ hb, List.getElem?_eq_getElem hb]

theorem capture_downsample_reference_witness :
    ∃ img, capture_snapshot_thumbnail ⟨true, 0, 0, 2, 1, [1, 2, 3, 4, 5, 6, 7, 8], 0⟩ 7 =
        some (img, 307200) ∧ img.length = 307200 ∧
      ∀ x y c, x < 320 → y < 240 → c < 4 →
        (y * 1 / 240 * 2 + x * 2 / 320) * 4 + c <
          (GLState.mk true 0 0 2 1 [1, 2, 3, 4, 5, 6, 7, 8] 0).read_pixels.length ∧
        img[(y * 320 + x) * 4 + c]? =
          (GLState.mk true 0 0 2 1 [1, 2, 3, 4, 5, 6, 7, 8] 0).read_pixels[
            (y * 1 / 240 * 2 + x * 2 / 320) * 4 + c]? :=
  capture_downsample_reference ⟨true, 0, 0, 2, 1, [1, 2, 3, 4, 5, 6, 7, 8], 0⟩ 7 2 1 rfl
    (by decide) rfl rfl (by decide) (by decide) (by decide) (by decide) rfl rfl

/-- The capture succeeds exactly along the path that reaches the loops. -/
theorem capture_eq_some (gl : GLState) (tex : Nat) (hctx : gl.has_context = true)
    (htex : tex ≠ 0) (hw : 0 < gl.viewport2) (hh : 0 < gl.viewport3) (herr : gl.gl_error = 0) :
    capture_snapshot_thumbnail gl tex =
      some (downsample gl.viewport2 gl.viewport3 gl.read_pixels (List.replicate 307200 0),
        307200) := by
  unfold capture_snapshot_thumbnail
  have h1 : (!gl.has_context || tex == 0) = false := by
    simp [hctx, htex]
  have h2 : ¬ (gl.viewport2 ≤ 0 ∨ gl.viewport3 ≤ 0) := by omega
  rw [h1]
  simp only [Bool.false_eq_true, if_false]
  rw [if_neg h2, if_neg (not_not.mpr herr)]
  rfl

/-- The loop body is the copy between the offsets named `pixel_dst_off` and
`pixel_src_off`. -/
theorem downsample_pixel_offsets (src_w : Int) (src dst : List Nat) (y : Nat) (src_y : Int)
    (x : Nat) :
    downsample_pixel src_w src y src_y dst x =
      memcpy dst (pixel_dst_off y x) src (pixel_src_off src_w src_y (pixel_src_x src_w x)) 4 :=
  rfl

/-- The outer loop body runs the inner loop with `src_y = pixel_src_y`. -/
theorem downsample_row_src_y (src_w src_h : Int) (src dst : List Nat) (y : Nat) :
    downsample_row src_w src_h src dst y =
      (List.range SNAPSHOT_PREVIEW_WIDTH).foldl
        (downsample_pixel src_w src y (pixel_src_y src_h y)) dst :=
  rfl

/-- C11: downsample identity.  When the source frame is exactly `320 x 240`
(and the pixel read delivers its `307200` bytes), the captured image is
byte-for-byte the source pixel buffer: destination pixel `(x, y)` is source
pixel `(x, y)`. -/
theorem capture_downsample_identity (gl : GLState) (tex : Nat)
    (hctx : gl.has_context = true) (htex : tex ≠ 0)
    (hw : gl.viewport2 = 320) (hh : gl.viewport3 = 240)
    (herr : gl.gl_error = 0) (hlen : gl.read_pixels.length = 307200) :
    capture_snapshot_thumbnail gl tex = some (gl.read_pixels, 307200) ∧
      ∀ img n, capture_snapshot_thumbnail gl tex = some (img, n) →
        ∀ x y c, x < 320 → y < 240 → c < 4 →
          img[(y * 320 + x) * 4 + c]? = gl.read_pixels[(y * 320 + x) * 4 + c]? := by
  have hcap := capture_eq_some gl tex hctx htex (by rw [hw]; decide) (by rw [hh]; decide) herr
  obtain ⟨hl, hi⟩ := downsample_rows_spec 320 240 gl.read_pixels
    (List.replicate 307200 0) 240 (by norm_num) (by norm_num) (le_refl _)
    (List.length_replicate _ _)
  have himg : downsample gl.viewport2 gl.viewport3 gl.read_pixels (List.replicate 307200 0) =
      gl.read_pixels := by
    rw [hw, hh]
    apply List.ext_getElem?
    intro i
    by_cases hi0 : i < 307200
    · have hdec : i = (i / 1280 * 320 + i / 4 % 320) * 4 + i % 4 := by omega
      have := hi (i / 4 % 320) (i / 1280) (i % 4) (by omega) (by omega) (by omega)
      rw [Nat.mul_div_cancel _ (by decide : 0 < 240),
        Nat.mul_div_cancel _ (by decide : 0 < 320), ← hdec] at this
      unfold downsample SNAPSHOT_PREVIEW_HEIGHT
      rw [show ((320 : Nat) : Int) = 320 from rfl, show ((240 : Nat) : Int) = 240 from rfl] at this
      rw [this, List.getD_eq_getElem _ _ (by omega), List.getElem?_eq_getElem (by omega)]
    · have h1 : (downsample 320 240 gl.read_pixels (List.replicate 307200 0)).length ≤ i := by
        unfold downsample SNAPSHOT_PREVIEW_HEIGHT
        have hl2 := hl
        rw [show ((320 : Nat) : Int) = 320 from rfl, show ((240 : Nat) : Int) = 240 from rfl]
          at hl2
        omega
      rw [List.getElem?_eq_none h1, List.getElem?_eq_none (by omega)]
  rw [himg] at hcap
  refine ⟨hcap, ?_⟩
  intro img n h x y c _ _ _
  rw [hcap] at h
  rw [← (Prod.mk.inj (Option.some.inj h)).1]

theorem capture_downsample_identity_witness :
    capture_snapshot_thumbnail ⟨true, 0, 0, 320, 240, List.replicate 307200 9, 0⟩ 1 =
        some ((GLState.mk true 0 0 320 240 (List.replicate 307200 9) 0).read_pixels, 307200) ∧
      ∀ img n, capture_snapshot_thumbnail ⟨true, 0, 0, 320, 240, List.replicate 307200 9, 0⟩ 1 =
          some (img, n) →
        ∀ x y c, x < 320 → y < 240 → c < 4 →
          img[(y * 320 + x) * 4 + c]? =
            (GLState.mk true 0 0 320 240 (List.replicate 307200 9) 0).read_pixels[
              (y * 320 + x) * 4 + c]? :=
  capture_downsample_identity ⟨true, 0, 0, 320, 240, List.replicate 307200 9, 0⟩ 1 rfl
    (by decide) rfl rfl rfl (List.length_replicate 307200 9)

/-- The `size_t` computation of a source offset does not wrap when the row,
the width and the column are below `2 ^ 31`. -/
theorem src_off_no_wrap (a W q : Nat) (ha : a < 2 ^ 31) (hW : W < 2 ^ 31) (hq : q < 2 ^ 31) :
    ((a * W) % 2 ^ 64 + q) % 2 ^ 64 * 4 % 2 ^ 64 = (a * W + q) * 4 := by
  have hprod : a * W ≤ (2 ^ 31 - 1) * (2 ^ 31 - 1) :=
    Nat.mul_le_mul (by norm_num at ha ⊢; omega) (by norm_num at hW ⊢; omega)
  norm_num at hprod hq ⊢
  omega

/-- The `size_t` computation of a destination offset does not wrap. -/
theorem dst_off_no_wrap (y x : Nat) (hx : x < 320) (hy : y < 240) :
    ((y * 320) % 2 ^ 64 + x) % 2 ^ 64 * 4 % 2 ^ 64 = (y * 320 + x) * 4 := by
  norm_num
  omega

/-- The 64-bit product of a destination coordinate and a source extent is
representable in `int64_t`. -/
theorem int64_product_exact (t s : Nat) (ht : t < 320) (hs : s < 2 ^ 31) :
    wrapInt64 ((t : Int) * (s : Int)) = (t : Int) * (s : Int) := by
  have hm : t * s ≤ 319 * s := Nat.mul_le_mul_right s (by omega)
  have hlt : t * s < 2 ^ 63 := by
    norm_num at hs ⊢
    omega
  have hc : ((t : Int) * (s : Int)) = ((t * s : Nat) : Int) := by push_cast; rfl
  rw [hc]
  exact wrapInt64_natCast _ hlt

/-- C20: downsample accesses stay in bounds.  For every source size with
`1 ≤ srcW, srcH ≤ 2 ^ 31 - 1` and every destination pixel `(x, y)` with
`x < 320`, `y < 240`: the 64-bit products `x * srcW` and `y * srcH` are
representable in `int64_t` (the conversion does not change them), the computed
source column is `x * srcW / 320 < srcW` and the source row is
`y * srcH / 240 < srcH`, the 4-byte read at `src_off` ends at or before
`srcW * srcH * 4`, and the 4-byte write at `dst_off = (y * 320 + x) * 4` ends
at or before `307200`. -/
theorem downsample_accesses_in_bounds (srcW srcH x y : Nat) (hW1 : 1 ≤ srcW) (hH1 : 1 ≤ srcH)
    (hW : srcW ≤ 2 ^ 31 - 1) (hH : srcH ≤ 2 ^ 31 - 1) (hx : x < 320) (hy : y < 240) :
    wrapInt64 ((x : Int) * (srcW : Int)) = (x : Int) * (srcW : Int) ∧
    wrapInt64 ((y : Int) * (srcH : Int)) = (y : Int) * (srcH : Int) ∧
    pixel_src_x (srcW : Int) x = ((x * srcW / 320 : Nat) : Int) ∧
    pixel_src_y (srcH : Int) y = ((y * srcH / 240 : Nat) : Int) ∧
    x * srcW / 320 < srcW ∧ y * srcH / 240 < srcH ∧
    pixel_src_off (srcW : Int) (pixel_src_y (srcH : Int) y) (pixel_src_x (srcW : Int) x) =
      (y * srcH / 240 * srcW + x * srcW / 320) * 4 ∧
    pixel_src_off (srcW : Int) (pixel_src_y (srcH : Int) y) (pixel_src_x (srcW : Int) x) + 4 ≤
      srcW * srcH * 4 ∧
    pixel_dst_off y x = (y * 320 + x) * 4 ∧
    pixel_dst_off y x + 4 ≤ 307200 := by
  have hW2 : srcW < 2 ^ 31 := Nat.lt_of_le_pred (by norm_num) hW
  have hH2 : srcH < 2 ^ 31 := Nat.lt_of_le_pred (by norm_num) hH
  have h64 : ∀ n : Nat, n < 2 ^ 31 → n < 2 ^ 64 := fun n hn =>
    lt_trans hn (by norm_num)
  obtain ⟨hqx, hqx31, hqxW⟩ := src_coord_eq srcW x 320 hW2 (by decide) (by decide) hx
  obtain ⟨hqy, hqy31, hqyH⟩ := src_coord_eq srcH y 240 hH2 (by decide) (by decide) hy
  have hdst : pixel_dst_off y x = (y * 320 + x) * 4 := dst_off_no_wrap y x hx hy
  have hoff : pixel_src_off (srcW : Int) (pixel_src_y (srcH : Int) y)
      (pixel_src_x (srcW : Int) x) = (y * srcH / 240 * srcW + x * srcW / 320) * 4 := by
    unfold pixel_src_off pixel_src_x pixel_src_y SNAPSHOT_PREVIEW_WIDTH SNAPSHOT_PREVIEW_HEIGHT
    rw [hqx, hqy, toSizeT_natCast _ (h64 _ hqy31), toSizeT_natCast srcW (h64 _ hW2),
      toSizeT_natCast _ (h64 _ hqx31)]
    exact src_off_no_wrap _ _ _ hqy31 hW2 hqx31
  have hin := src_offset_in_bounds srcW srcH x y 3 hW1 hH1 hx hy (by decide)
  have hread : (y * srcH / 240 * srcW + x * srcW / 320) * 4 + 4 ≤ srcW * srcH * 4 :=
    Nat.succ_le_of_lt hin
  have hwrite : (y * 320 + x) * 4 + 4 ≤ 307200 := by
    clear hqx hqy hoff hdst hin hread
    omega
  refine ⟨int64_product_exact x srcW hx hW2, int64_product_exact y srcH (by omega) hH2, hqx,
    hqy, hqxW hW1, hqyH hH1, hoff, ?_, hdst, ?_⟩
  · rw [hoff]
    exact hread
  · rw [hdst]
    exact hwrite

theorem downsample_accesses_in_bounds_witness :
    wrapInt64 (((319 : Nat) : Int) * ((1280 : Nat) : Int)) =
      ((319 : Nat) : Int) * ((1280 : Nat) : Int) ∧
    wrapInt64 (((239 : Nat) : Int) * ((720 : Nat) : Int)) =
      ((239 : Nat) : Int) * ((720 : Nat) : Int) ∧
    pixel_src_x ((1280 : Nat) : Int) 319 = ((319 * 1280 / 320 : Nat) : Int) ∧
    pixel_src_y ((720 : Nat) : Int) 239 = ((239 * 720 / 240 : Nat) : Int) ∧
    319 * 1280 / 320 < 1280 ∧ 239 * 720 / 240 < 720 ∧
    pixel_src_off ((1280 : Nat) : Int) (pixel_src_y ((720 : Nat) : Int) 239)
        (pixel_src_x ((1280 : Nat) : Int) 319) =
      (239 * 720 / 240 * 1280 + 319 * 1280 / 320) * 4 ∧
    pixel_src_off ((1280 : Nat) : Int) (pixel_src_y ((720 : Nat) : Int) 239)
        (pixel_src_x ((1280 : Nat) : Int) 319) + 4 ≤ 1280 * 720 * 4 ∧
    pixel_dst_off 239 319 = (239 * 320 + 319) * 4 ∧
    pixel_dst_off 239 319 + 4 ≤ 307200 :=
  downsample_accesses_in_bounds 1280 720 319 239 (by decide) (by decide) (by decide)
    (by decide) (by decide) (by decide)

/-! ## Truncated chunks -/

theorem qemu_get_buffer_short (f : QEMUFile) (size : Nat)
    (h : f.unread.length ≤ size) :
    (qemu_get_buffer f size).2 = ⟨f.data, f.pos + f.unread.length⟩ := by
  unfold QEMUFile.unread at h ⊢
  unfold qemu_get_buffer
  dsimp only
  rw [List.take_of_length_le h]

/-- The decoder returns `true` on every stream. -/
theorem offset_extra_data_returns_true (magic : Nat) (f : QEMUFile) :
    (xemu_snapshots_offset_extra_data magic f).1 = true := by
  unfold xemu_snapshots_offset_extra_data
  dsimp only
  split <;> rfl

/-- C18 (as stated, refuted): a chunk with magic, version 1 and declared length
5 followed by only 2 bytes is truncated, yet the decoder returns `true`. -/
theorem offset_extra_data_truncated_counterexample :
    ([1, 2] : List Nat).length < 5 ∧
    (xemu_snapshots_offset_extra_data exampleMagic
      ⟨be32 exampleMagic ++ be32 1 ++ be32 5 ++ [1, 2], 0⟩).1 = true := by
  decide

/-- C18 (amended): for every stream that starts with the chunk magic, a
version and a declared length `L` but holds fewer than `L` bytes after the
length field, the decoder still returns `true`; it consumes every remaining
byte, leaving the cursor at the end of the stream. -/
theorem offset_extra_data_truncated (magic v L : Nat) (f : QEMUFile) (tail : List Nat)
    (hm : magic < 2 ^ 32) (hL : L < 2 ^ 32) (hlen : tail.length < L)
    (h : f.unread = be32 magic ++ be32 v ++ be32 L ++ tail) :
    (xemu_snapshots_offset_extra_data magic f).1 = true ∧
      (xemu_snapshots_offset_extra_data magic f).2.pos = f.data.length ∧
      (xemu_snapshots_offset_extra_data magic f).2.unread = [] := by
  have h2 : f.unread = be32 magic ++ (be32 v ++ (be32 L ++ tail)) := by
    rw [h]
    simp only [List.append_assoc]
  obtain ⟨e0, h0⟩ := qemu_get_be32_be32 f _ _ hm h2
  obtain ⟨e1, h1⟩ := qemu_get_be32_unread _ _ _ _ _ _ h0
  obtain ⟨e2, h3⟩ := qemu_get_be32_be32 _ _ _ hL h1
  have e3 := qemu_get_buffer_short ⟨f.data, f.pos + 4 + 4 + 4⟩ L (by rw [h3]; omega)
  rw [h3] at e3
  have htot : f.pos + 4 + 4 + 4 + tail.length = f.data.length := by
    have hl := congrArg List.length h
    unfold QEMUFile.unread at hl
    simp only [List.length_drop, List.length_append, be32_length] at hl
    omega
  have hres : xemu_snapshots_offset_extra_data magic f = (true, ⟨f.data, f.data.length⟩) := by
    unfold xemu_snapshots_offset_extra_data
    rw [e0]
    dsimp only
    rw [if_neg (not_not.mpr rfl), e1]
    dsimp only
    rw [e2]
    dsimp only
    rw [e3, htot]
  rw [hres]
  refine ⟨rfl, rfl, ?_⟩
  unfold QEMUFile.unread
  exact List.drop_length _

theorem offset_extra_data_truncated_witness :
    (xemu_snapshots_offset_extra_data exampleMagic
      ⟨be32 exampleMagic ++ be32 1 ++ be32 5 ++ [1, 2], 0⟩).1 = true ∧
    (xemu_snapshots_offset_extra_data exampleMagic
      ⟨be32 exampleMagic ++ be32 1 ++ be32 5 ++ [1, 2], 0⟩).2.pos =
      (QEMUFile.mk (be32 exampleMagic ++ be32 1 ++ be32 5 ++ [1, 2]) 0).data.length ∧
    (xemu_snapshots_offset_extra_data exampleMagic
      ⟨be32 exampleMagic ++ be32 1 ++ be32 5 ++ [1, 2], 0⟩).2.unread = [] :=
  offset_extra_data_truncated exampleMagic 1 5
    ⟨be32 exampleMagic ++ be32 1 ++ be32 5 ++ [1, 2], 0⟩ [1, 2] (by decide) (by decide)
    (by decide) rfl

/-! ## Lemmas on the request dispatcher -/

theorem process_lock_held (w : World) (s : SnapReq) (hl : s.lock_held = true) :
    xemu_android_process_snapshot_request w s = (s, []) := by
  unfold xemu_android_process_snapshot_request
  rw [if_pos hl]

theorem process_not_pending (w : World) (s : SnapReq) (hp : s.pending = false) :
    xemu_android_process_snapshot_request w s = (s, []) := by
  unfold xemu_android_process_snapshot_request
  by_cases hl : s.lock_held = true
  · rw [if_pos hl]
  · rw [if_neg hl, hp]
    rfl

theorem process_save (w : World) (s : SnapReq) (hl : s.lock_held = false)
    (hp : s.pending = true) (ht : s.type = SnapOpType.SNAP_SAVE) :
    xemu_android_process_snapshot_request w s =
      (⟨s.lock_held, s.type, s.name, false, true, !xemu_snapshots_save w.engine (cstr s.name)⟩,
        Event.engine_save (cstr s.name) ::
          ((if xemu_snapshots_save w.engine (cstr s.name) then []
            else [Event.sidecar (cstr s.name)
              (write_snapshot_preview_sidecar w.env (some (cstr s.name)))]) ++
            [Event.cond_signal])) := by
  unfold xemu_android_process_snapshot_request
  cases h : xemu_snapshots_save w.engine (cstr s.name) <;> simp [hl, hp, ht, h]

theorem process_load (w : World) (s : SnapReq) (hl : s.lock_held = false)
    (hp : s.pending = true) (ht : s.type = SnapOpType.SNAP_LOAD) :
    xemu_android_process_snapshot_request w s =
      (⟨s.lock_held, s.type, s.name, false, true, !xemu_snapshots_load w.engine (cstr s.name)⟩,
        [Event.engine_load (cstr s.name), Event.cond_signal]) := by
  unfold xemu_android_process_snapshot_request
  cases h : xemu_snapshots_load w.engine (cstr s.name) <;> simp [hl, hp, ht, h]

theorem process_none (w : World) (s : SnapReq) (hl : s.lock_held = false)
    (hp : s.pending = true) (ht : s.type = SnapOpType.SNAP_NONE) :
    xemu_android_process_snapshot_request w s =
      (⟨s.lock_held, s.type, s.name, false, true, true⟩, [Event.cond_signal]) := by
  unfold xemu_android_process_snapshot_request
  simp [hl, hp, ht]

/-- The drain never changes the name buffer, the kind or the lock flag. -/
theorem process_frame (w : World) (s : SnapReq) :
    (xemu_android_process_snapshot_request w s).1.name = s.name ∧
    (xemu_android_process_snapshot_request w s).1.type = s.type ∧
    (xemu_android_process_snapshot_request w s).1.lock_held = s.lock_held := by
  by_cases hl : s.lock_held = true
  · rw [process_lock_held w s hl]
    exact ⟨rfl, rfl, rfl⟩
  · have hl2 : s.lock_held = false := by simpa using hl
    by_cases hp : s.pending = true
    · cases ht : s.type
      · rw [process_none w s hl2 hp ht]
        exact ⟨rfl, ht, rfl⟩
      · rw [process_save w s hl2 hp ht]
        exact ⟨rfl, ht, rfl⟩
      · rw [process_load w s hl2 hp ht]
        exact ⟨rfl, ht, rfl⟩
    · rw [process_not_pending w s (by simpa using hp)]
      exact ⟨rfl, rfl, rfl⟩

/-- After a drain whose lock attempt succeeds nothing is pending. -/
theorem process_clears_pending (w : World) (s : SnapReq) (hl : s.lock_held = false) :
    (xemu_android_process_snapshot_request w s).1.pending = false := by
  by_cases hp : s.pending = true
  · cases ht : s.type
    · rw [process_none w s hl hp ht]
    · rw [process_save w s hl hp ht]
    · rw [process_load w s hl hp ht]
  · have hp2 : s.pending = false := by simpa using hp
    rw [process_not_pending w s hp2]
    exact hp2

/-! ## Theorems on the drain step -/

/-- C13: the sidecar writer is invoked by a drain if and only if the drain
processes a pending Save (the lock attempt succeeds and a request is pending)
and the engine save verb reported no error; in particular it is never invoked
for a Load request or after a failed Save. -/
theorem sidecar_invoked_iff (w : World) (s : SnapReq) :
    ((∃ n files, Event.sidecar n files ∈ (xemu_android_process_snapshot_request w s).2) ↔
      (s.lock_held = false ∧ s.pending = true ∧ s.type = SnapOpType.SNAP_SAVE ∧
        xemu_snapshots_save w.engine (cstr s.name) = false)) ∧
    (s.type = SnapOpType.SNAP_LOAD →
      ∀ n files, Event.sidecar n files ∉ (xemu_android_process_snapshot_request w s).2) ∧
    (xemu_snapshots_save w.engine (cstr s.name) = true →
      ∀ n files, Event.sidecar n files ∉ (xemu_android_process_snapshot_request w s).2) := by
  have key : (∃ n files, Event.sidecar n files ∈ (xemu_android_process_snapshot_request w s).2) ↔
      (s.lock_held = false ∧ s.pending = true ∧ s.type = SnapOpType.SNAP_SAVE ∧
        xemu_snapshots_save w.engine (cstr s.name) = false) := by
    by_cases hl : s.lock_held = true
    · rw [process_lock_held w s hl]
      simp [hl]
    · have hl2 : s.lock_held = false := by simpa using hl
      by_cases hp : s.pending = true
      · cases ht : s.type
        · rw [process_none w s hl2 hp ht]
          simp
        · rw [process_save w s hl2 hp ht]
          cases h : xemu_snapshots_save w.engine (cstr s.name) <;> simp [hl2, hp]
        · rw [process_load w s hl2 hp ht]
          simp
      · have hp2 : s.pending = false := by simpa using hp
        rw [process_not_pending w s hp2]
        simp [hp2]
  refine ⟨key, ?_, ?_⟩
  · intro ht n files hmem
    have := key.mp ⟨n, files, hmem⟩
    rw [ht] at this
    exact absurd this.2.2.1 (by decide)
  · intro herr n files hmem
    have := key.mp ⟨n, files, hmem⟩
    rw [herr] at this
    exact absurd this.2.2.2 (by decide)

theorem sidecar_invoked_iff_witness :
    ((∃ n files, Event.sidecar n files ∈
        (xemu_android_process_snapshot_request failingWorld g_snap_req_init).2) ↔
      (g_snap_req_init.lock_held = false ∧ g_snap_req_init.pending = true ∧
        g_snap_req_init.type = SnapOpType.SNAP_SAVE ∧
        xemu_snapshots_save failingWorld.engine (cstr g_snap_req_init.name) = false)) ∧
    (g_snap_req_init.type = SnapOpType.SNAP_LOAD →
      ∀ n files, Event.sidecar n files ∉
        (xemu_android_process_snapshot_request failingWorld g_snap_req_init).2) ∧
    (xemu_snapshots_save failingWorld.engine (cstr g_snap_req_init.name) = true →
      ∀ n files, Event.sidecar n files ∉
        (xemu_android_process_snapshot_request failingWorld g_snap_req_init).2) :=
  sidecar_invoked_iff failingWorld g_snap_req_init

/-! ## Lemmas on the submission step -/

theorem cstr_append_nul (p tl : List Nat) (hp : ∀ b ∈ p, b ≠ 0) : cstr (p ++ 0 :: tl) = p := by
  unfold cstr
  rw [List.takeWhile_append_of_pos (fun a ha => by simpa using hp a ha)]
  simp

theorem submit_name_eq (s : SnapReq) (name : List Nat) (t : SnapOpType) :
    (dispatch_snapshot_submit s name t).name = (memcpy s.name 0 (cstr name) 0 127).set 127 0 := by
  simp only [dispatch_snapshot_submit, strncpy]

/-- The bytes of a 128-byte buffer after `strncpy(buf, name, 127)` and
`buf[127] = 0`. -/
theorem name_buffer_bytes (buf src : List Nat) (hbuf : buf.length = 128) :
    ((memcpy buf 0 src 0 127).set 127 0).length = 128 ∧
    (∀ k, k < 127 → ((memcpy buf 0 src 0 127).set 127 0)[k]? = some (src.getD k 0)) ∧
    ((memcpy buf 0 src 0 127).set 127 0)[127]? = some 0 := by
  have hml : (memcpy buf 0 src 0 127).length = 128 := by
    rw [memcpy_length, hbuf]
  refine ⟨by rw [List.length_set, hml], ?_, ?_⟩
  · intro k hk
    rw [List.getElem?_set, if_neg (by omega)]
    have := memcpy_getElem?_inside buf 0 src 0 127 k hk (by omega)
    rw [Nat.zero_add] at this
    exact this
  · rw [List.getElem?_set, if_pos rfl, if_pos (by omega)]

/-- The C string held by a 128-byte buffer whose first 127 bytes are those of
the NUL-free string `name` (NUL-padded) and whose last byte is NUL. -/
theorem name_buffer_cstr (b name : List Nat) (hl : b.length = 128)
    (hk : ∀ k, k < 127 → b[k]? = some (name.getD k 0)) (h127 : b[127]? = some 0)
    (hnul : ∀ x ∈ name, x ≠ 0) :
    cstr b = name.take (min name.length 127) ∧ b[min name.length 127]? = some 0 := by
  have hterm : b[min name.length 127]? = some 0 := by
    by_cases h : name.length < 127
    · rw [Nat.min_eq_left (by omega), hk _ h, List.getD_eq_default _ _ (le_refl _)]
    · rw [Nat.min_eq_right (by omega)]
      exact h127
  have hpre : b.take (min name.length 127) = name.take (min name.length 127) := by
    apply List.ext_getElem?
    intro i
    rw [List.getElem?_take, List.getElem?_take]
    by_cases hi : i < min name.length 127
    · rw [if_pos hi, if_pos hi, hk i (by omega), List.getD_eq_getElem _ _ (by omega),
        List.getElem?_eq_getElem (by omega)]
    · rw [if_neg hi, if_neg hi]
  have hlt : min name.length 127 < b.length := by omega
  have hdrop : b.drop (min name.length 127) = 0 :: b.drop (min name.length 127 + 1) := by
    have h0 : b[min name.length 127] = 0 := by
      have := List.getElem?_eq_getElem hlt
      rw [hterm] at this
      exact (Option.some.inj this).symm
    rw [List.drop_eq_getElem_cons hlt, h0]
  refine ⟨?_, hterm⟩
  rw [← List.take_append_drop (min name.length 127) b, hpre, hdrop]
  exact cstr_append_nul _ _ (fun x hx => hnul x (List.mem_of_mem_take hx))

/-! ## Theorems on the submission step -/

theorem run_cons_of_step (w : World) (σ σ1 : Sys) (a : Action) (rest : List Action)
    (e1 : List Event) (h : step w σ a = some (σ1, e1)) :
    run w σ (a :: rest) = (run w σ1 rest).map (fun r => (r.1, e1 ++ r.2)) := by
  rw [run, h]
  dsimp only
  cases run w σ1 rest with
  | none => rfl
  | some r => rfl

theorem step_drain_idle (w : World) (σ : Sys) (hp : σ.slot.pending = false) :
    step w σ Action.drain = some (σ, []) := by
  unfold step
  rw [process_not_pending w σ.slot hp]

/-- Polls with nothing pending do nothing. -/
theorem run_idle_drains (w : World) (σ : Sys) (hp : σ.slot.pending = false) (k : Nat)
    (rest : List Action) :
    run w σ (List.replicate k Action.drain ++ rest) = run w σ rest := by
  induction k with
  | zero => rfl
  | succ k ih =>
    rw [List.replicate_succ, List.cons_append,
      run_cons_of_step w σ σ _ _ [] (step_drain_idle w σ hp), ih]
    cases run w σ rest with
    | none => rfl
    | some r => rfl

theorem step_submit_write (w : World) (σ : Sys) (c : Nat) (name : List Nat) (t : SnapOpType)
    (hl : σ.slot.lock_held = false) (hc : c ∉ σ.waiting) :
    step w σ (Action.submit_write c name t) =
      some (⟨dispatch_snapshot_submit σ.slot name t, c :: σ.waiting⟩, []) := by
  unfold step
  dsimp only
  rw [if_neg]
  rw [hl]
  simp [hc]

theorem step_submit_return (w : World) (σ : Sys) (c : Nat) (hl : σ.slot.lock_held = false)
    (hc : c ∈ σ.waiting) (hd : σ.slot.done = true) :
    step w σ (Action.submit_return c) =
      some (⟨(dispatch_snapshot_return σ.slot).2, σ.waiting.erase c⟩,
        [Event.returned c σ.slot.success]) := by
  unfold step
  dsimp only
  rw [if_pos ⟨hc, hl, hd⟩]
  rfl

/-- One complete request of a single caller: submit-write, one poll of the
owner, submit-return. -/
theorem run_request (w : World) (σ : Sys) (c : Nat) (name : List Nat) (t : SnapOpType)
    (rest : List Action) (hl : σ.slot.lock_held = false) (hc : c ∉ σ.waiting) :
    run w σ (Action.submit_write c name t :: Action.drain :: Action.submit_return c :: rest) =
      (run w ⟨(dispatch_snapshot_return (xemu_android_process_snapshot_request w
          (dispatch_snapshot_submit σ.slot name t)).1).2, σ.waiting⟩ rest).map
        (fun r => (r.1, (xemu_android_process_snapshot_request w
          (dispatch_snapshot_submit σ.slot name t)).2 ++
            (Event.returned c (xemu_android_process_snapshot_request w
              (dispatch_snapshot_submit σ.slot name t)).1.success :: r.2))) := by
  have hl1 : (dispatch_snapshot_submit σ.slot name t).lock_held = false := hl
  have hp1 : (dispatch_snapshot_submit σ.slot name t).pending = true := rfl
  have hfr := process_frame w (dispatch_snapshot_submit σ.slot name t)
  have hdone : (xemu_android_process_snapshot_request w
      (dispatch_snapshot_submit σ.slot name t)).1.done = true := by
    cases ht : (dispatch_snapshot_submit σ.slot name t).type
    · rw [process_none w _ hl1 hp1 ht]
    · rw [process_save w _ hl1 hp1 ht]
    · rw [process_load w _ hl1 hp1 ht]
  rw [run_cons_of_step w σ _ _ _ [] (step_submit_write w σ c name t hl hc)]
  have hdrain : step w ⟨dispatch_snapshot_submit σ.slot name t, c :: σ.waiting⟩ Action.drain =
      some (⟨(xemu_android_process_snapshot_request w
          (dispatch_snapshot_submit σ.slot name t)).1, c :: σ.waiting⟩,
        (xemu_android_process_snapshot_request w (dispatch_snapshot_submit σ.slot name t)).2) :=
    rfl
  rw [run_cons_of_step w _ _ _ _ _ hdrain]
  have hret := step_submit_return w
    ⟨(xemu_android_process_snapshot_request w (dispatch_snapshot_submit σ.slot name t)).1,
      c :: σ.waiting⟩ c (by rw [hfr.2.2]; exact hl1) (List.mem_cons_self c _) hdone
  rw [run_cons_of_step w _ _ _ _ _ hret]
  have her : (c :: σ.waiting).erase c = σ.waiting := List.erase_cons_head c σ.waiting
  simp only [her]
  cases run w ⟨(dispatch_snapshot_return (xemu_android_process_snapshot_request w
      (dispatch_snapshot_submit σ.slot name t)).1).2, σ.waiting⟩ rest with
  | none => rfl
  | some r => simp

/-- The slot's name after the submission step, for a NUL-free requested name. -/
theorem submit_cstr (s : SnapReq) (name : List Nat) (t : SnapOpType)
    (hbuf : s.name.length = 128) (hnul : ∀ b ∈ name, b ≠ 0) :
    cstr (dispatch_snapshot_submit s name t).name = name.take (min name.length 127) := by
  have hcn : cstr name = name := takeWhile_ne_zero_eq name hnul
  rw [submit_name_eq]
  obtain ⟨hl, hk, h127⟩ := name_buffer_bytes s.name (cstr name) hbuf
  rw [hcn] at hl hk h127 ⊢
  exact (name_buffer_cstr _ name hl hk h127 hnul).1

/-- A drain that processes a Save or Load request calls exactly one engine
verb. -/
theorem process_engineCalls (w : World) (s : SnapReq) (hl : s.lock_held = false)
    (hp : s.pending = true) (ht : s.type ≠ SnapOpType.SNAP_NONE) :
    engineCalls (xemu_android_process_snapshot_request w s).2 = 1 := by
  cases h : s.type
  · exact absurd h ht
  · rw [process_save w s hl hp h]
    cases xemu_snapshots_save w.engine (cstr s.name) <;> rfl
  · rw [process_load w s hl hp h]
    rfl

/-! ## Theorems on complete requests -/

/-- C14 (as stated, refuted): a save request with the empty name, submitted to
an engine whose save verb fails, makes the drain call the engine save verb
with the empty name, and the call returns `false`. -/
theorem empty_name_request_counterexample :
    (run failingWorld ⟨g_snap_req_init, []⟩
      [Action.submit_write 1 [] SnapOpType.SNAP_SAVE, Action.drain,
        Action.submit_return 1]).map Prod.snd =
      some [Event.engine_save [], Event.cond_signal, Event.returned 1 false] := by
  decide

/-- C14 (amended): a save or load request submitted with the empty name is
handed to the engine like any other request: the drain calls the engine verb
with the empty name and the call returns `true` exactly when that verb reports
no error; the sidecar writer, invoked after a successful save, writes no file
for the empty name. -/
theorem empty_name_request (w : World) (σ : Sys) (c : Nat)
    (hl : σ.slot.lock_held = false) (hc : c ∉ σ.waiting) (hbuf : σ.slot.name.length = 128) :
    (∃ σ1, run w σ [Action.submit_write c [] SnapOpType.SNAP_SAVE, Action.drain,
        Action.submit_return c] =
      some (σ1, Event.engine_save [] ::
        ((if xemu_snapshots_save w.engine [] then [] else [Event.sidecar [] []]) ++
          [Event.cond_signal, Event.returned c (!xemu_snapshots_save w.engine [])]))) ∧
    (∃ σ1, run w σ [Action.submit_write c [] SnapOpType.SNAP_LOAD, Action.drain,
        Action.submit_return c] =
      some (σ1, [Event.engine_load [], Event.cond_signal,
        Event.returned c (!xemu_snapshots_load w.engine [])])) := by
  have hname : ∀ t, cstr (dispatch_snapshot_submit σ.slot [] t).name = [] := by
    intro t
    rw [submit_cstr σ.slot [] t hbuf (fun b hb => absurd hb (List.not_mem_nil b))]
    rfl
  have hside : write_snapshot_preview_sidecar w.env (some []) = [] := rfl
  constructor
  · refine ⟨⟨(dispatch_snapshot_return (xemu_android_process_snapshot_request w
      (dispatch_snapshot_submit σ.slot [] SnapOpType.SNAP_SAVE)).1).2, σ.waiting⟩, ?_⟩
    rw [run_request w σ c [] SnapOpType.SNAP_SAVE [] hl hc,
      process_save w (dispatch_snapshot_submit σ.slot [] SnapOpType.SNAP_SAVE) hl rfl rfl,
      hname, hside]
    cases xemu_snapshots_save w.engine [] <;> rfl
  · refine ⟨⟨(dispatch_snapshot_return (xemu_android_process_snapshot_request w
      (dispatch_snapshot_submit σ.slot [] SnapOpType.SNAP_LOAD)).1).2, σ.waiting⟩, ?_⟩
    rw [run_request w σ c [] SnapOpType.SNAP_LOAD [] hl hc,
      process_load w (dispatch_snapshot_submit σ.slot [] SnapOpType.SNAP_LOAD) hl rfl rfl,
      hname]
    rfl

theorem empty_name_request_witness :
    (∃ σ1, run workingWorld ⟨g_snap_req_init, []⟩
        [Action.submit_write 1 [] SnapOpType.SNAP_SAVE, Action.drain,
          Action.submit_return 1] =
      some (σ1, Event.engine_save [] ::
        ((if xemu_snapshots_save workingWorld.engine [] then []
          else [Event.sidecar [] []]) ++
          [Event.cond_signal,
            Event.returned 1 (!xemu_snapshots_save workingWorld.engine [])]))) ∧
    (∃ σ1, run workingWorld ⟨g_snap_req_init, []⟩
        [Action.submit_write 1 [] SnapOpType.SNAP_LOAD, Action.drain,
          Action.submit_return 1] =
      some (σ1, [Event.engine_load [], Event.cond_signal,
        Event.returned 1 (!xemu_snapshots_load workingWorld.engine [])])) :=
  empty_name_request workingWorld ⟨g_snap_req_init, []⟩ 1 rfl (List.not_mem_nil 1)
    (List.length_replicate 128 0)

/-! ## Theorems on the single slot -/

/-- C16 (as stated, refuted): after caller 1 has written `requestSave("a")` and
before any drain, the submit-write of caller 2 with `requestSave("b")` is
enabled and replaces the slot's name `"a"` by `"b"`. -/
theorem second_submit_overwrites_counterexample :
    (run failingWorld ⟨g_snap_req_init, []⟩
      [Action.submit_write 1 [97] SnapOpType.SNAP_SAVE]).map
        (fun r => (cstr r.1.slot.name, r.1.slot.pending, r.1.slot.done)) =
      some ([97], true, false) ∧
    (run failingWorld ⟨g_snap_req_init, []⟩
      [Action.submit_write 1 [97] SnapOpType.SNAP_SAVE,
        Action.submit_write 2 [98] SnapOpType.SNAP_SAVE]).map
        (fun r => (cstr r.1.slot.name, r.1.slot.pending, r.1.slot.done)) =
      some ([98], true, false) := by
  decide

/-- C16 (amended): while a written request has not been drained (`pending`
set, `done` clear), a step that is not a submit-write leaves the slot's name and
kind unchanged: the drain never writes them and no submit-return is enabled.
A submit-write of another caller, however, is enabled as soon as the first
caller waits, and it stores its own kind and name in the slot. -/
theorem slot_steps_while_pending (w : World) :
    (∀ σ a σ1 evs, step w σ a = some (σ1, evs) → σ.slot.pending = true →
      σ.slot.done = false → (∀ c n t, a ≠ Action.submit_write c n t) →
      σ1.slot.name = σ.slot.name ∧ σ1.slot.type = σ.slot.type) ∧
    (∀ σ c1 n1 t1 c2 n2 t2, σ.slot.lock_held = false → c1 ∉ σ.waiting → c2 ∉ σ.waiting →
      c1 ≠ c2 → σ.slot.name.length = 128 → (∀ b ∈ n2, b ≠ 0) →
      ∃ σ1 σ2, step w σ (Action.submit_write c1 n1 t1) = some (σ1, []) ∧
        step w σ1 (Action.submit_write c2 n2 t2) = some (σ2, []) ∧
        σ2.slot.type = t2 ∧ cstr σ2.slot.name = n2.take (min n2.length 127) ∧
        σ2.slot.pending = true ∧ σ2.slot.done = false) := by
  constructor
  · intro σ a σ1 evs hstep hp hd hns
    cases a with
    | submit_write c n t => exact absurd rfl (hns c n t)
    | drain =>
      have h : some ((⟨(xemu_android_process_snapshot_request w σ.slot).1, σ.waiting⟩ : Sys),
          (xemu_android_process_snapshot_request w σ.slot).2) = some (σ1, evs) := hstep
      have h1 := (Prod.mk.inj (Option.some.inj h)).1
      rw [← h1]
      exact ⟨(process_frame w σ.slot).1, (process_frame w σ.slot).2.1⟩
    | submit_return c =>
      unfold step at hstep
      dsimp only at hstep
      rw [if_neg (by rw [hd]; simp)] at hstep
      exact Option.noConfusion hstep
  · intro σ c1 n1 t1 c2 n2 t2 hl hc1 hc2 hne hbuf hnul
    have hbuf1 : (dispatch_snapshot_submit σ.slot n1 t1).name.length = 128 := by
      rw [submit_name_eq]
      exact (name_buffer_bytes σ.slot.name (cstr n1) hbuf).1
    refine ⟨⟨dispatch_snapshot_submit σ.slot n1 t1, c1 :: σ.waiting⟩,
      ⟨dispatch_snapshot_submit (dispatch_snapshot_submit σ.slot n1 t1) n2 t2,
        c2 :: c1 :: σ.waiting⟩,
      step_submit_write w σ c1 n1 t1 hl hc1, ?_, rfl, ?_, rfl, rfl⟩
    · refine step_submit_write w _ c2 n2 t2 hl ?_
      intro hmem
      rcases List.mem_cons.mp hmem with h | h
      · exact hne h.symm
      · exact hc2 h
    · exact submit_cstr _ n2 t2 hbuf1 hnul

theorem slot_steps_while_pending_witness :
    ∃ σ1 σ2, step failingWorld ⟨g_snap_req_init, []⟩
        (Action.submit_write 1 [97] SnapOpType.SNAP_SAVE) = some (σ1, []) ∧
      step failingWorld σ1 (Action.submit_write 2 [98] SnapOpType.SNAP_LOAD) = some (σ2, []) ∧
      σ2.slot.type = SnapOpType.SNAP_LOAD ∧
      cstr σ2.slot.name = [98].take (min [98].length 127) ∧
      σ2.slot.pending = true ∧ σ2.slot.done = false :=
  (slot_steps_while_pending failingWorld).2 ⟨g_snap_req_init, []⟩ 1 [97] SnapOpType.SNAP_SAVE
    2 [98] SnapOpType.SNAP_LOAD rfl (List.not_mem_nil 1) (List.not_mem_nil 2) (by decide)
    (List.length_replicate 128 0) (by decide)

/-- C17: exactly-once execution.  A poll with nothing pending makes no call
(no engine verb, no sidecar write) and leaves the slot unchanged; a poll whose
lock attempt succeeds leaves nothing pending; and for one submitted Save or
Load request with any number of polls before it, one or more polls between the
submit-write and the submit-return, and any number of polls afterwards, the
whole run is possible and contains exactly one engine verb call. -/
theorem request_runs_exactly_once (w : World) :
    (∀ s, s.pending = false → xemu_android_process_snapshot_request w s = (s, [])) ∧
    (∀ s, s.lock_held = false →
      (xemu_android_process_snapshot_request w s).1.pending = false) ∧
    (∀ σ c name t k m j, σ.slot.pending = false → σ.slot.lock_held = false →
      c ∉ σ.waiting → t ≠ SnapOpType.SNAP_NONE →
      ∃ σ1 evs, run w σ (List.replicate k Action.drain ++
          (Action.submit_write c name t :: (List.replicate (m + 1) Action.drain ++
            (Action.submit_return c :: List.replicate j Action.drain)))) = some (σ1, evs) ∧
        engineCalls evs = 1 ∧ σ1.slot.pending = false) := by
  refine ⟨fun s hp => process_not_pending w s hp, fun s hl => process_clears_pending w s hl, ?_⟩
  intro σ c name t k m j hp hl hc ht
  have hl1 : (dispatch_snapshot_submit σ.slot name t).lock_held = false := hl
  have hp2 := process_clears_pending w (dispatch_snapshot_submit σ.slot name t) hl1
  have hcalls := process_engineCalls w (dispatch_snapshot_submit σ.slot name t) hl1 rfl ht
  have hdone : (xemu_android_process_snapshot_request w
      (dispatch_snapshot_submit σ.slot name t)).1.done = true := by
    cases h : (dispatch_snapshot_submit σ.slot name t).type
    · rw [process_none w _ hl1 rfl h]
    · rw [process_save w _ hl1 rfl h]
    · rw [process_load w _ hl1 rfl h]
  have hfr := process_frame w (dispatch_snapshot_submit σ.slot name t)
  have hdrain : step w ⟨dispatch_snapshot_submit σ.slot name t, c :: σ.waiting⟩ Action.drain =
      some (⟨(xemu_android_process_snapshot_request w
          (dispatch_snapshot_submit σ.slot name t)).1, c :: σ.waiting⟩,
        (xemu_android_process_snapshot_request w (dispatch_snapshot_submit σ.slot name t)).2) :=
    rfl
  have hret := step_submit_return w
    ⟨(xemu_android_process_snapshot_request w (dispatch_snapshot_submit σ.slot name t)).1,
      c :: σ.waiting⟩ c (by rw [hfr.2.2]; exact hl1) (List.mem_cons_self c _) hdone
  have hidle : run w ⟨(dispatch_snapshot_return (xemu_android_process_snapshot_request w
      (dispatch_snapshot_submit σ.slot name t)).1).2, (c :: σ.waiting).erase c⟩
      (List.replicate j Action.drain) = some (⟨(dispatch_snapshot_return
        (xemu_android_process_snapshot_request w
          (dispatch_snapshot_submit σ.slot name t)).1).2, (c :: σ.waiting).erase c⟩, []) := by
    have := run_idle_drains w ⟨(dispatch_snapshot_return (xemu_android_process_snapshot_request w
      (dispatch_snapshot_submit σ.slot name t)).1).2, (c :: σ.waiting).erase c⟩ hp2 j []
    rw [List.append_nil] at this
    rw [this]
    rfl
  refine ⟨⟨(dispatch_snapshot_return (xemu_android_process_snapshot_request w
      (dispatch_snapshot_submit σ.slot name t)).1).2, (c :: σ.waiting).erase c⟩,
    (xemu_android_process_snapshot_request w (dispatch_snapshot_submit σ.slot name t)).2 ++
      [Event.returned c (xemu_android_process_snapshot_request w
        (dispatch_snapshot_submit σ.slot name t)).1.success], ?_, ?_, hp2⟩
  · rw [run_idle_drains w σ hp k,
      run_cons_of_step w σ _ _ _ [] (step_submit_write w σ c name t hl hc),
      List.replicate_succ, List.cons_append, run_cons_of_step w _ _ _ _ _ hdrain,
      run_idle_drains w _ hp2 m, run_cons_of_step w _ _ _ _ _ hret, hidle]
    simp
  · unfold engineCalls at hcalls ⊢
    rw [List.filter_append, List.length_append, hcalls]
    rfl

theorem request_runs_exactly_once_witness :
    ∃ σ1 evs, run failingWorld ⟨g_snap_req_init, []⟩ (List.replicate 3 Action.drain ++
        (Action.submit_write 1 [97] SnapOpType.SNAP_LOAD ::
          (List.replicate (2 + 1) Action.drain ++
            (Action.submit_return 1 :: List.replicate 4 Action.drain)))) = some (σ1, evs) ∧
      engineCalls evs = 1 ∧ σ1.slot.pending = false :=
  (request_runs_exactly_once failingWorld).2.2 ⟨g_snap_req_init, []⟩ 1 [97]
    SnapOpType.SNAP_LOAD 3 2 4 rfl rfl (List.not_mem_nil 1) (by decide)

/-! ## Lemmas on the sidecar writer -/

theorem foldl_length_preserved {β : Type} (f : List Nat → β → List Nat)
    (hf : ∀ d b, (f d b).length = d.length) (l : List β) (d : List Nat) :
    (l.foldl f d).length = d.length := by
  induction l generalizing d with
  | nil => rfl
  | cons b t ih => rw [List.foldl_cons, ih, hf]

/-- The loops never change the size of the destination buffer. -/
theorem downsample_length (src_w src_h : Int) (src dst : List Nat) :
    (downsample src_w src_h src dst).length = dst.length := by
  unfold downsample
  apply foldl_length_preserved
  intro d y
  unfold downsample_row
  apply foldl_length_preserved
  intro d2 x
  exact memcpy_length _ _ _ _ _

/-- A successful capture always delivers `307200` bytes and reports that size. -/
theorem capture_some_length (gl : GLState) (tex : Nat) (img : List Nat) (n : Nat)
    (h : capture_snapshot_thumbnail gl tex = some (img, n)) :
    n = 307200 ∧ img.length = 307200 := by
  unfold capture_snapshot_thumbnail at h
  split at h
  · exact Option.noConfusion h
  · split at h
    · exact Option.noConfusion h
    · dsimp only at h
      split at h
      · exact Option.noConfusion h
      · have hp := Prod.mk.inj (Option.some.inj h)
        have hn : SNAPSHOT_PREVIEW_WIDTH * SNAPSHOT_PREVIEW_HEIGHT % 2 ^ 64 * 4 % 2 ^ 64 =
            307200 := by
          unfold SNAPSHOT_PREVIEW_WIDTH SNAPSHOT_PREVIEW_HEIGHT
          norm_num
        rw [hn] at hp
        refine ⟨hp.2.symm, ?_⟩
        rw [← hp.1, downsample_length, List.length_replicate]

theorem snapshot_preview_header_bytes (le : Bool) :
    snapshot_preview_header le =
      (if le then [88, 49, 84, 72, 1, 0, 64, 1, 240, 0, 4, 0]
        else [88, 49, 84, 72, 0, 1, 1, 64, 0, 240, 0, 4]) ∧
    (snapshot_preview_header le).length = 12 := by
  cases le <;> exact ⟨by decide, by decide⟩

/-! ## Theorems on the sidecar writer -/

/-- C19: thumbnail file layout.  Whenever the preview directory is available,
the capture succeeds with the image `img`, the thumbnail file can be opened and
the writes to it are complete, the sidecar writer writes to `<dir>/<stem>.thm`
exactly `307212` bytes: the 12-byte header with no padding (the ASCII bytes
`X1TH`, then the 16-bit values 1, 320, 240, 4 in the byte order of the target)
followed immediately by the `307200` bytes of `img`, unchanged and in order. -/
theorem thumbnail_file_layout (env : SidecarEnv) (vm_name dir img : List Nat) (n : Nat)
    (hname : vm_name.headD 0 ≠ 0)
    (hdir : get_snapshot_preview_dir env = some dir)
    (hcap : capture_snapshot_thumbnail env.gl env.display_tex = some (img, n))
    (hopen : env.fopen_ok
      (dir ++ [47] ++ (sanitize_snapshot_name (some vm_name) 128).getD [] ++ thmSuffix) = true)
    (hwrite : ∀ data : List Nat, data.length ≤ env.fwrite_count
      (dir ++ [47] ++ (sanitize_snapshot_name (some vm_name) 128).getD [] ++ thmSuffix)
      data) :
    (∃ title_files, write_snapshot_preview_sidecar env (some vm_name) =
      title_files ++
        [(dir ++ [47] ++ (sanitize_snapshot_name (some vm_name) 128).getD [] ++ thmSuffix,
          snapshot_preview_header env.little_endian ++ img)]) ∧
    snapshot_preview_header env.little_endian =
      (if env.little_endian then [88, 49, 84, 72, 1, 0, 64, 1, 240, 0, 4, 0]
        else [88, 49, 84, 72, 0, 1, 1, 64, 0, 240, 0, 4]) ∧
    (snapshot_preview_header env.little_endian).length = 12 ∧
    img.length = 307200 ∧
    (snapshot_preview_header env.little_endian ++ img).length = 307212 := by
  obtain ⟨hn, himg⟩ := capture_some_length _ _ _ _ hcap
  obtain ⟨hbytes, hhl⟩ := snapshot_preview_header_bytes env.little_endian
  have hfull : ∀ data : List Nat, fwrite_bytes env
      (dir ++ [47] ++ (sanitize_snapshot_name (some vm_name) 128).getD [] ++ thmSuffix)
      data = data := by
    intro data
    unfold fwrite_bytes
    exact List.take_of_length_le (hwrite data)
  refine ⟨?_, hbytes, hhl, himg, by rw [List.length_append, hhl, himg]⟩
  unfold write_snapshot_preview_sidecar
  dsimp only
  rw [if_neg hname, hdir]
  dsimp only
  rw [hcap]
  dsimp only
  rw [if_pos hopen, hfull, hfull, hhl, if_neg (by decide), hn,
    List.take_of_length_le (by omega)]
  exact ⟨_, rfl⟩

theorem thumbnail_file_layout_witness :
    (∃ title_files, write_snapshot_preview_sidecar workingWorld.env
        (some [77, 121, 71, 97, 109, 101]) =
      title_files ++
        [([47, 100] ++ x1boxSnapshotsLit ++ [47] ++
            (sanitize_snapshot_name (some [77, 121, 71, 97, 109, 101]) 128).getD [] ++ thmSuffix,
          snapshot_preview_header workingWorld.env.little_endian ++
            downsample workingWorld.env.gl.viewport2 workingWorld.env.gl.viewport3
              workingWorld.env.gl.read_pixels (List.replicate 307200 0))]) ∧
    snapshot_preview_header workingWorld.env.little_endian =
      (if workingWorld.env.little_endian then [88, 49, 84, 72, 1, 0, 64, 1, 240, 0, 4, 0]
        else [88, 49, 84, 72, 0, 1, 1, 64, 0, 240, 0, 4]) ∧
    (snapshot_preview_header workingWorld.env.little_endian).length = 12 ∧
    (downsample workingWorld.env.gl.viewport2 workingWorld.env.gl.viewport3
      workingWorld.env.gl.read_pixels (List.replicate 307200 0)).length = 307200 ∧
    (snapshot_preview_header workingWorld.env.little_endian ++
      downsample workingWorld.env.gl.viewport2 workingWorld.env.gl.viewport3
        workingWorld.env.gl.read_pixels (List.replicate 307200 0)).length = 307212 :=
  thumbnail_file_layout workingWorld.env [77, 121, 71, 97, 109, 101]
    ([47, 100] ++ x1boxSnapshotsLit)
    (downsample workingWorld.env.gl.viewport2 workingWorld.env.gl.viewport3
      workingWorld.env.gl.read_pixels (List.replicate 307200 0)) 307200 (by decide) rfl
    (capture_eq_some workingWorld.env.gl workingWorld.env.display_tex rfl (by decide)
      (by decide) (by decide) rfl)
    rfl (fun data => le_refl data.length)

end XemuSnapshots
